import Mathlib

set_option maxRecDepth 8000

/-!
Verification of the template resolution and variable-substitution engine of the
comp-template repository.  Strings are modelled as lists of characters
(`Str := List Char`); the JavaScript string functions used by the source
(`replace` with a global regex, `trim`, `split(/\s+/)`, `toLowerCase`,
`toUpperCase`) are embedded below.  All inputs of interest are ASCII, where
`Char.toLower`/`Char.toUpper` agree with the JavaScript case mappings.
-/

abbrev Str := List Char

namespace CompTemplate

/-- The JS character class `[A-Z]` (code points 65–90). -/
def isUpperJs (c : Char) : Bool := decide (65 ≤ c.toNat ∧ c.toNat ≤ 90)

/-- The JS character class `[a-z]` (code points 97–122). -/
def isLowerJs (c : Char) : Bool := decide (97 ≤ c.toNat ∧ c.toNat ≤ 122)

/-- The JS character class `[0-9]` (code points 48–57). -/
def isDigitJs (c : Char) : Bool := decide (48 ≤ c.toNat ∧ c.toNat ≤ 57)

/-- The JS character class `[a-zA-Z0-9]` used by the regexes in `src/utils.ts`. -/
def isAlnumJs (c : Char) : Bool :=
  isUpperJs c || isLowerJs c || isDigitJs c

/-- `str.replace(/[^a-zA-Z0-9]/g, " ")`: every non-alphanumeric character
becomes a single space (the regex replaces each character separately). -/
def replaceNonAlnum (s : Str) : Str :=
  s.map fun c => if isAlnumJs c then c else ' '

/-- `str.replace(/([a-z])([A-Z])/g, "$1 $2")`: insert a space between every
adjacent lowercase-letter/uppercase-letter pair.  The regex's non-overlapping
global matches coincide with this character-pair scan because a character can
never be both the `$2` (uppercase) of one match and the `$1` (lowercase) of
the next. -/
def addCamelSpaces : Str → Str
  | [] => []
  | a :: rest =>
    match rest with
    | [] => [a]
    | b :: _ =>
      if isLowerJs a && isUpperJs b then a :: ' ' :: addCamelSpaces rest
      else a :: addCamelSpaces rest

/-- `str.trim()`.  At every call site the string has already passed through
`replaceNonAlnum`, which turns every whitespace character into `' '`, so
trimming `' '` is faithful. -/
def trimSpaces (s : Str) : Str :=
  ((s.dropWhile (· == ' ')).reverse.dropWhile (· == ' ')).reverse

/-- `str.split(/\s+/)` on an already-trimmed string: the maximal runs of
non-space characters.  (On the empty string JS returns `[""]` rather than
`[]`; every consumer maps a word transformer that sends `""` to `""` and then
joins, so the two conventions give identical results.) -/
def splitWsAux (cur : Str) : Str → List Str
  | [] => if cur = [] then [] else [cur.reverse]
  | c :: cs =>
    if c = ' ' then
      if cur = [] then splitWsAux [] cs
      else cur.reverse :: splitWsAux [] cs
    else splitWsAux (c :: cur) cs

def splitWs (s : Str) : List Str := splitWsAux [] s

/-- `word.charAt(0).toUpperCase() + word.slice(1).toLowerCase()`. -/
def capitalizeWord : Str → Str
  | [] => []
  | c :: cs => c.toUpper :: cs.map Char.toLower

def lowerWord (w : Str) : Str := w.map Char.toLower

def upperWord (w : Str) : Str := w.map Char.toUpper

/-- The shared word-splitting pipeline of `StringCase` in `src/utils.ts`:
replace non-alphanumerics by spaces, insert a space at each lowercase→uppercase
boundary, trim, split on whitespace runs. -/
def toWords (s : Str) : List Str :=
  splitWs (trimSpaces (addCamelSpaces (replaceNonAlnum s)))

/-- `content.replace(/\s+/g, " ")` on a string whose only whitespace is `' '`:
collapse each run of spaces to a single space. -/
def collapseSpacesAux (prevSpace : Bool) : Str → Str
  | [] => []
  | c :: cs =>
    if c = ' ' then
      if prevSpace then collapseSpacesAux true cs
      else ' ' :: collapseSpacesAux true cs
    else c :: collapseSpacesAux false cs

def collapseSpaces (s : Str) : Str := collapseSpacesAux false s

namespace StringCase

/-- `StringCase.toPascalCase` from `src/utils.ts`. -/
def toPascalCase (s : Str) : Str :=
  ((toWords s).map capitalizeWord).flatten

/-- `StringCase.toCamelCase`: PascalCase with the first character lowercased. -/
def toCamelCase (s : Str) : Str :=
  match toPascalCase s with
  | [] => []
  | c :: cs => c.toLower :: cs

/-- `StringCase.toKebabCase`. -/
def toKebabCase (s : Str) : Str :=
  List.intercalate ['-'] ((toWords s).map lowerWord)

/-- `StringCase.toSnakeCase`. -/
def toSnakeCase (s : Str) : Str :=
  List.intercalate ['_'] ((toWords s).map lowerWord)

/-- `StringCase.toConstantCase`. -/
def toConstantCase (s : Str) : Str :=
  List.intercalate ['_'] ((toWords s).map upperWord)

/-- `StringCase.toTitleCase`. -/
def toTitleCase (s : Str) : Str :=
  List.intercalate [' '] ((toWords s).map capitalizeWord)

/-- `StringCase.toLowerCase`: strip all non-alphanumerics, lowercase the rest. -/
def toLowerCase (s : Str) : Str :=
  (s.filter isAlnumJs).map Char.toLower

/-- `StringCase.toLowerCaseWithSpaces`: replace non-alphanumerics by spaces,
camel boundaries, trim, lowercase the whole string, collapse space runs. -/
def toLowerCaseWithSpaces (s : Str) : Str :=
  collapseSpaces ((trimSpaces (addCamelSpaces (replaceNonAlnum s))).map Char.toLower)

end StringCase

/-- The `TemplateVariables` record from `src/types`. -/
structure TemplateVariables where
  templateNameToPascalCase : Str
  templateNameToCamelCase : Str
  templateNameToDashCase : Str
  templateNameToSnakeCase : Str
  templateNameToConstantCase : Str
  templateNameToTitleCase : Str
  templateNameToLowerCase : Str
  templateNameToLowerCaseWithSpaces : Str
deriving DecidableEq, Repr

/-- `generateTemplateVariables` from `src/utils.ts`. -/
def generateTemplateVariables (name : Str) : TemplateVariables where
  templateNameToPascalCase := StringCase.toPascalCase name
  templateNameToCamelCase := StringCase.toCamelCase name
  templateNameToDashCase := StringCase.toKebabCase name
  templateNameToSnakeCase := StringCase.toSnakeCase name
  templateNameToConstantCase := StringCase.toConstantCase name
  templateNameToTitleCase := StringCase.toTitleCase name
  templateNameToLowerCase := StringCase.toLowerCase name
  templateNameToLowerCaseWithSpaces := StringCase.toLowerCaseWithSpaces name

/-- `s` starts with `pat` (JS `String.prototype.startsWith`, and the test used
when scanning for a literal-regex match). -/
def startsWithL {α : Type} [DecidableEq α] : List α → List α → Bool
  | [], _ => true
  | _ :: _, [] => false
  | p :: ps, c :: cs => if p = c then startsWithL ps cs else false

/-- One step of `content.replace(/pat/g, rep)` for a nonempty literal pattern
`p :: ps`: scan left to right; at a match emit `rep` and resume after the
matched text, otherwise keep the character.  `fuel` bounds the number of scan
steps; every step consumes at least one character of `s`, so `s.length` fuel
is always enough (see `replaceAll`). -/
def replaceAllAux (p : Char) (ps rep : Str) : Nat → Str → Str
  | 0, s => s
  | _ + 1, [] => []
  | fuel + 1, c :: cs =>
    if startsWithL (p :: ps) (c :: cs) then
      rep ++ replaceAllAux p ps rep fuel (cs.drop ps.length)
    else c :: replaceAllAux p ps rep fuel cs

/-- `content.replace(/pat/g, rep)` for a literal pattern and a replacement
containing no `$` escapes (every replacement value produced by
`generateTemplateVariables` is `$`-free, since the case transformers only emit
alphanumerics, spaces, dashes and underscores). -/
def replaceAll (pat rep s : Str) : Str :=
  match pat with
  | [] => s
  | p :: ps => replaceAllAux p ps rep s.length s

/-- `replaceTemplateVariables` from `src/utils.ts`: the eight global literal
replacements, in source order. -/
def replaceTemplateVariables (content : Str) (vars : TemplateVariables) : Str :=
  replaceAll "__templateNameToLowerCaseWithSpaces__".data vars.templateNameToLowerCaseWithSpaces
    (replaceAll "__templateNameToLowerCase__".data vars.templateNameToLowerCase
      (replaceAll "__templateNameToTitleCase__".data vars.templateNameToTitleCase
        (replaceAll "__templateNameToConstantCase__".data vars.templateNameToConstantCase
          (replaceAll "__templateNameToSnakeCase__".data vars.templateNameToSnakeCase
            (replaceAll "__templateNameToDashCase__".data vars.templateNameToDashCase
              (replaceAll "__templateNameToCamelCase__".data vars.templateNameToCamelCase
                (replaceAll "__templateNameToPascalCase__".data vars.templateNameToPascalCase
                  content)))))))

/-- The eight recognized placeholder tokens (`VALID_PLACEHOLDERS` in
`src/template-validator.ts`, and the eight regexes of
`replaceTemplateVariables`). -/
def VALID_PLACEHOLDERS : List Str :=
  [ "__templateNameToPascalCase__".data
  , "__templateNameToCamelCase__".data
  , "__templateNameToDashCase__".data
  , "__templateNameToSnakeCase__".data
  , "__templateNameToConstantCase__".data
  , "__templateNameToTitleCase__".data
  , "__templateNameToLowerCase__".data
  , "__templateNameToLowerCaseWithSpaces__".data ]

/-- C6 check on a concrete input, proved below as `claim_C6_user_profile`. -/
example : StringCase.toPascalCase "user profile".data = "UserProfile".data := by decide

/-- C6: `generateTemplateVariables "user profile"` yields exactly the eight
advertised case variants. -/
theorem claim_C6_user_profile :
    generateTemplateVariables "user profile".data =
      { templateNameToPascalCase := "UserProfile".data
        templateNameToCamelCase := "userProfile".data
        templateNameToDashCase := "user-profile".data
        templateNameToSnakeCase := "user_profile".data
        templateNameToConstantCase := "USER_PROFILE".data
        templateNameToTitleCase := "User Profile".data
        templateNameToLowerCase := "userprofile".data
        templateNameToLowerCaseWithSpaces := "user profile".data } := by
  decide

/-- C8: on the empty input every one of the eight case transformers returns
the empty string, and `generateTemplateVariables ""` binds all eight keys to
the empty string. -/
theorem claim_C8_empty_input :
    StringCase.toPascalCase [] = [] ∧
    StringCase.toCamelCase [] = [] ∧
    StringCase.toKebabCase [] = [] ∧
    StringCase.toSnakeCase [] = [] ∧
    StringCase.toConstantCase [] = [] ∧
    StringCase.toTitleCase [] = [] ∧
    StringCase.toLowerCase [] = [] ∧
    StringCase.toLowerCaseWithSpaces [] = [] ∧
    generateTemplateVariables [] =
      { templateNameToPascalCase := []
        templateNameToCamelCase := []
        templateNameToDashCase := []
        templateNameToSnakeCase := []
        templateNameToConstantCase := []
        templateNameToTitleCase := []
        templateNameToLowerCase := []
        templateNameToLowerCaseWithSpaces := [] } := by
  decide

/-! ### Substring occurrence (JS `String.prototype.includes` / regex literal search) -/

/-- Auxiliary scan: does the nonempty pattern `p :: ps` occur in `s`? -/
def hasSubstrAux (p : Char) (ps : Str) : Str → Bool
  | [] => false
  | c :: cs => startsWithL (p :: ps) (c :: cs) || hasSubstrAux p ps cs

/-- `s.includes(pat)`: `pat` occurs as a contiguous substring of `s`. -/
def hasSubstr (pat s : Str) : Bool :=
  match pat with
  | [] => true
  | p :: ps => hasSubstrAux p ps s

/-- `s` contains no occurrence of any of the eight recognized tokens. -/
def tokenFree (s : Str) : Bool :=
  VALID_PLACEHOLDERS.all fun t => !(hasSubstr t s)

/-- All eight replacement values of a variable set are token-free. -/
def valuesTokenFree (v : TemplateVariables) : Bool :=
  tokenFree v.templateNameToPascalCase && tokenFree v.templateNameToCamelCase &&
  tokenFree v.templateNameToDashCase && tokenFree v.templateNameToSnakeCase &&
  tokenFree v.templateNameToConstantCase && tokenFree v.templateNameToTitleCase &&
  tokenFree v.templateNameToLowerCase && tokenFree v.templateNameToLowerCaseWithSpaces

theorem startsWithL_mem {α : Type} [DecidableEq α] :
    ∀ (pat s : List α), startsWithL pat s = true → ∀ a ∈ pat, a ∈ s := by
  intro pat
  induction pat with
  | nil => intro s _ a ha; exact absurd ha (List.not_mem_nil a)
  | cons p ps ih =>
    intro s h a ha
    cases s with
    | nil => simp [startsWithL] at h
    | cons c cs =>
      simp only [startsWithL] at h
      by_cases hpc : p = c
      · rw [if_pos hpc] at h
        rcases List.mem_cons.mp ha with h1 | h1
        · subst h1; exact hpc ▸ List.mem_cons_self _ _
        · exact List.mem_cons_of_mem _ (ih cs h a h1)
      · rw [if_neg hpc] at h; exact absurd h (by simp)

theorem hasSubstrAux_mem (p : Char) (ps : Str) :
    ∀ s, hasSubstrAux p ps s = true → ∀ a ∈ p :: ps, a ∈ s := by
  intro s
  induction s with
  | nil => intro h; simp [hasSubstrAux] at h
  | cons c cs ih =>
    intro h a ha
    simp only [hasSubstrAux, Bool.or_eq_true] at h
    rcases h with h | h
    · exact startsWithL_mem _ _ h a ha
    · exact List.mem_cons_of_mem _ (ih h a ha)

theorem hasSubstr_mem (pat s : Str) (h : hasSubstr pat s = true) : ∀ a ∈ pat, a ∈ s := by
  cases pat with
  | nil => intro a ha; exact absurd ha (List.not_mem_nil a)
  | cons p ps => exact hasSubstrAux_mem p ps s h

theorem replaceAllAux_id (p : Char) (ps rep : Str) :
    ∀ (fuel : Nat) (s : Str), hasSubstrAux p ps s = false →
      replaceAllAux p ps rep fuel s = s := by
  intro fuel
  induction fuel with
  | zero => intro s _; rfl
  | succ n ih =>
    intro s h
    cases s with
    | nil => rfl
    | cons c cs =>
      simp only [hasSubstrAux, Bool.or_eq_false_iff] at h
      simp only [replaceAllAux, h.1, Bool.false_eq_true, if_false]
      rw [ih cs h.2]

/-- If the pattern does not occur in `s`, global replacement leaves `s`
unchanged. -/
theorem replaceAll_id (pat rep s : Str) (h : hasSubstr pat s = false) :
    replaceAll pat rep s = s := by
  cases pat with
  | nil => rfl
  | cons p ps => exact replaceAllAux_id p ps rep s.length s h

theorem tokenFree_iff (s : Str) :
    tokenFree s = true ↔ ∀ t ∈ VALID_PLACEHOLDERS, hasSubstr t s = false := by
  unfold tokenFree
  rw [List.all_eq_true]
  constructor <;> intro h t ht <;> have := h t ht <;> simpa using this

/-! ### Character-class facts about the case transformers -/

theorem char_toNat_ofNat {n : Nat} (h : n < 55296) : (Char.ofNat n).toNat = n := by
  have hv : n.isValidChar := Or.inl h
  rw [Char.ofNat, dif_pos hv]
  rfl

theorem toNat_toLower (c : Char) :
    (Char.toLower c).toNat =
      if 65 ≤ c.toNat ∧ c.toNat ≤ 90 then c.toNat + 32 else c.toNat := by
  by_cases h : 65 ≤ c.toNat ∧ c.toNat ≤ 90
  · rw [if_pos h]
    have he : Char.toLower c = Char.ofNat (c.toNat + 32) := by
      unfold Char.toLower
      exact if_pos ⟨h.1, h.2⟩
    rw [he]
    exact char_toNat_ofNat (by omega)
  · rw [if_neg h]
    have he : Char.toLower c = c := by
      unfold Char.toLower
      exact if_neg fun hc => h ⟨hc.1, hc.2⟩
    rw [he]

theorem toNat_toUpper (c : Char) :
    (Char.toUpper c).toNat =
      if 97 ≤ c.toNat ∧ c.toNat ≤ 122 then c.toNat - 32 else c.toNat := by
  by_cases h : 97 ≤ c.toNat ∧ c.toNat ≤ 122
  · rw [if_pos h]
    have he : Char.toUpper c = Char.ofNat (c.toNat - 32) := by
      unfold Char.toUpper
      exact if_pos ⟨h.1, h.2⟩
    rw [he]
    exact char_toNat_ofNat (by omega)
  · rw [if_neg h]
    have he : Char.toUpper c = c := by
      unfold Char.toUpper
      exact if_neg fun hc => h ⟨hc.1, hc.2⟩
    rw [he]

theorem isUpperJs_toLower (c : Char) : isUpperJs (Char.toLower c) = false := by
  have ht := toNat_toLower c
  simp only [isUpperJs, decide_eq_false_iff_not, ht]
  split <;> omega

theorem isLowerJs_toUpper (c : Char) : isLowerJs (Char.toUpper c) = false := by
  have ht := toNat_toUpper c
  simp only [isLowerJs, decide_eq_false_iff_not, ht]
  split <;> omega

theorem isAlnumJs_toLower (c : Char) (h : isAlnumJs c = true) :
    isAlnumJs (Char.toLower c) = true := by
  have ht := toNat_toLower c
  simp only [isAlnumJs, isUpperJs, isLowerJs, isDigitJs, Bool.or_eq_true,
    decide_eq_true_eq, ht] at h ⊢
  split <;> omega

theorem isAlnumJs_toUpper (c : Char) (h : isAlnumJs c = true) :
    isAlnumJs (Char.toUpper c) = true := by
  have ht := toNat_toUpper c
  simp only [isAlnumJs, isUpperJs, isLowerJs, isDigitJs, Bool.or_eq_true,
    decide_eq_true_eq, ht] at h ⊢
  split <;> omega

theorem mem_dropWhile {α : Type} (p : α → Bool) :
    ∀ (l : List α) (a : α), a ∈ l.dropWhile p → a ∈ l := by
  intro l
  induction l with
  | nil => intro a h; simp at h
  | cons x xs ih =>
    intro a h
    rw [List.dropWhile_cons] at h
    split at h
    · exact List.mem_cons_of_mem _ (ih a h)
    · exact h

theorem mem_trimSpaces (s : Str) (a : Char) (h : a ∈ trimSpaces s) : a ∈ s := by
  unfold trimSpaces at h
  rw [List.mem_reverse] at h
  have h2 := mem_dropWhile _ _ _ h
  rw [List.mem_reverse] at h2
  exact mem_dropWhile _ _ _ h2

theorem mem_replaceNonAlnum (s : Str) (a : Char) (h : a ∈ replaceNonAlnum s) :
    isAlnumJs a = true ∨ a = ' ' := by
  unfold replaceNonAlnum at h
  rcases List.mem_map.mp h with ⟨b, _, hb⟩
  by_cases hab : isAlnumJs b
  · rw [if_pos hab] at hb; exact Or.inl (hb ▸ hab)
  · rw [if_neg hab] at hb; exact Or.inr hb.symm

theorem mem_addCamelSpaces : ∀ (s : Str) (a : Char),
    a ∈ addCamelSpaces s → a ∈ s ∨ a = ' ' := by
  intro s
  induction s with
  | nil => intro a h; simp [addCamelSpaces] at h
  | cons x rest ih =>
    intro a h
    cases rest with
    | nil =>
      simp only [addCamelSpaces, List.mem_singleton] at h
      exact Or.inl (h ▸ List.mem_cons_self _ _)
    | cons b t =>
      simp only [addCamelSpaces] at h
      split at h
      · rcases List.mem_cons.mp h with h1 | h1
        · exact Or.inl (h1 ▸ List.mem_cons_self _ _)
        · rcases List.mem_cons.mp h1 with h2 | h2
          · exact Or.inr h2
          · rcases ih a h2 with h3 | h3
            · exact Or.inl (List.mem_cons_of_mem _ h3)
            · exact Or.inr h3
      · rcases List.mem_cons.mp h with h1 | h1
        · exact Or.inl (h1 ▸ List.mem_cons_self _ _)
        · rcases ih a h1 with h3 | h3
          · exact Or.inl (List.mem_cons_of_mem _ h3)
          · exact Or.inr h3

theorem splitWsAux_mem : ∀ (s cur w : Str), w ∈ splitWsAux cur s → ∀ a ∈ w,
    a ∈ cur ∨ (a ∈ s ∧ a ≠ ' ') := by
  intro s
  induction s with
  | nil =>
    intro cur w hw a ha
    simp only [splitWsAux] at hw
    split at hw
    · simp at hw
    · rw [List.mem_singleton] at hw
      subst hw
      exact Or.inl (List.mem_reverse.mp ha)
  | cons c cs ih =>
    intro cur w hw a ha
    simp only [splitWsAux] at hw
    by_cases hc : c = ' '
    · rw [if_pos hc] at hw
      split at hw
      · rcases ih [] w hw a ha with h | h
        · simp at h
        · exact Or.inr ⟨List.mem_cons_of_mem _ h.1, h.2⟩
      · rcases List.mem_cons.mp hw with h1 | h1
        · subst h1; exact Or.inl (List.mem_reverse.mp ha)
        · rcases ih [] w h1 a ha with h | h
          · simp at h
          · exact Or.inr ⟨List.mem_cons_of_mem _ h.1, h.2⟩
    · rw [if_neg hc] at hw
      rcases ih (c :: cur) w hw a ha with h | h
      · rcases List.mem_cons.mp h with h2 | h2
        · subst h2; exact Or.inr ⟨List.mem_cons_self _ _, hc⟩
        · exact Or.inl h2
      · exact Or.inr ⟨List.mem_cons_of_mem _ h.1, h.2⟩

/-- Every character of every word produced by the shared splitting pipeline is
alphanumeric. -/
theorem toWords_chars (s w : Str) (hw : w ∈ toWords s) (a : Char) (ha : a ∈ w) :
    isAlnumJs a = true := by
  unfold toWords splitWs at hw
  rcases splitWsAux_mem _ [] w hw a ha with h | h
  · simp at h
  · have h1 := mem_trimSpaces _ _ h.1
    rcases mem_addCamelSpaces _ _ h1 with h2 | h2
    · rcases mem_replaceNonAlnum _ _ h2 with h3 | h3
      · exact h3
      · exact absurd h3 h.2
    · exact absurd h2 h.2

theorem mem_capitalizeWord (w : Str) (hw : ∀ b ∈ w, isAlnumJs b = true)
    (a : Char) (ha : a ∈ capitalizeWord w) : isAlnumJs a = true := by
  cases w with
  | nil => simp [capitalizeWord] at ha
  | cons c cs =>
    simp only [capitalizeWord] at ha
    rcases List.mem_cons.mp ha with h | h
    · subst h; exact isAlnumJs_toUpper c (hw c (List.mem_cons_self _ _))
    · rcases List.mem_map.mp h with ⟨b, hb, hba⟩
      subst hba; exact isAlnumJs_toLower b (hw b (List.mem_cons_of_mem _ hb))

theorem mem_intersperse {β : Type} (sep : β) :
    ∀ (L : List β) (x : β), x ∈ L.intersperse sep → x = sep ∨ x ∈ L := by
  intro L
  induction L with
  | nil => intro x h; simp at h
  | cons a rest ih =>
    intro x h
    cases rest with
    | nil =>
      rw [List.intersperse_singleton, List.mem_singleton] at h
      exact Or.inr (h ▸ List.mem_cons_self _ _)
    | cons b t =>
      rw [List.intersperse_cons_cons] at h
      rcases List.mem_cons.mp h with h1 | h1
      · exact Or.inr (h1 ▸ List.mem_cons_self _ _)
      · rcases List.mem_cons.mp h1 with h2 | h2
        · exact Or.inl h2
        · rcases ih x h2 with h3 | h3
          · exact Or.inl h3
          · exact Or.inr (List.mem_cons_of_mem _ h3)

theorem mem_intercalate_words (sep : Str) (L : List Str) (a : Char)
    (h : a ∈ List.intercalate sep L) : a ∈ sep ∨ ∃ w ∈ L, a ∈ w := by
  unfold List.intercalate at h
  rcases List.mem_flatten.mp h with ⟨w, hw, haw⟩
  rcases mem_intersperse sep _ w hw with h1 | h1
  · subst h1; exact Or.inl haw
  · exact Or.inr ⟨w, h1, haw⟩

theorem mem_toPascalCase (s : Str) (a : Char) (h : a ∈ StringCase.toPascalCase s) :
    isAlnumJs a = true := by
  unfold StringCase.toPascalCase at h
  rcases List.mem_flatten.mp h with ⟨w, hw, haw⟩
  rcases List.mem_map.mp hw with ⟨w0, hw0, hww⟩
  subst hww
  exact mem_capitalizeWord w0 (fun b hb => toWords_chars s w0 hw0 b hb) a haw

theorem mem_toCamelCase (s : Str) (a : Char) (h : a ∈ StringCase.toCamelCase s) :
    isAlnumJs a = true := by
  unfold StringCase.toCamelCase at h
  cases hp : StringCase.toPascalCase s with
  | nil => rw [hp] at h; simp at h
  | cons c cs =>
    rw [hp] at h
    rcases List.mem_cons.mp h with h1 | h1
    · subst h1
      exact isAlnumJs_toLower c (mem_toPascalCase s c (by rw [hp]; exact List.mem_cons_self _ _))
    · exact mem_toPascalCase s a (by rw [hp]; exact List.mem_cons_of_mem _ h1)

theorem mem_toKebabCase (s : Str) (a : Char) (h : a ∈ StringCase.toKebabCase s) :
    a = '-' ∨ isAlnumJs a = true := by
  unfold StringCase.toKebabCase at h
  rcases mem_intercalate_words _ _ _ h with h1 | ⟨w, hw, haw⟩
  · rw [List.mem_singleton] at h1; exact Or.inl h1
  · rcases List.mem_map.mp hw with ⟨w0, hw0, hww⟩
    subst hww
    rcases List.mem_map.mp haw with ⟨b, hb, hba⟩
    subst hba
    exact Or.inr (isAlnumJs_toLower b (toWords_chars s w0 hw0 b hb))

theorem mem_toSnakeCase (s : Str) (a : Char) (h : a ∈ StringCase.toSnakeCase s) :
    isUpperJs a = false := by
  unfold StringCase.toSnakeCase at h
  rcases mem_intercalate_words _ _ _ h with h1 | ⟨w, hw, haw⟩
  · rw [List.mem_singleton] at h1; subst h1; decide
  · rcases List.mem_map.mp hw with ⟨w0, _, hww⟩
    subst hww
    rcases List.mem_map.mp haw with ⟨b, _, hba⟩
    subst hba
    exact isUpperJs_toLower b

theorem mem_toConstantCase (s : Str) (a : Char) (h : a ∈ StringCase.toConstantCase s) :
    isLowerJs a = false := by
  unfold StringCase.toConstantCase at h
  rcases mem_intercalate_words _ _ _ h with h1 | ⟨w, hw, haw⟩
  · rw [List.mem_singleton] at h1; subst h1; decide
  · rcases List.mem_map.mp hw with ⟨w0, _, hww⟩
    subst hww
    rcases List.mem_map.mp haw with ⟨b, _, hba⟩
    subst hba
    exact isLowerJs_toUpper b

theorem mem_toTitleCase (s : Str) (a : Char) (h : a ∈ StringCase.toTitleCase s) :
    a = ' ' ∨ isAlnumJs a = true := by
  unfold StringCase.toTitleCase at h
  rcases mem_intercalate_words _ _ _ h with h1 | ⟨w, hw, haw⟩
  · rw [List.mem_singleton] at h1; exact Or.inl h1
  · rcases List.mem_map.mp hw with ⟨w0, hw0, hww⟩
    subst hww
    exact Or.inr (mem_capitalizeWord w0 (fun b hb => toWords_chars s w0 hw0 b hb) a haw)

theorem mem_toLowerCase (s : Str) (a : Char) (h : a ∈ StringCase.toLowerCase s) :
    isAlnumJs a = true := by
  unfold StringCase.toLowerCase at h
  rcases List.mem_map.mp h with ⟨b, hb, hba⟩
  subst hba
  exact isAlnumJs_toLower b (List.of_mem_filter hb)

theorem mem_collapseSpacesAux : ∀ (s : Str) (b : Bool) (a : Char),
    a ∈ collapseSpacesAux b s → a ∈ s := by
  intro s
  induction s with
  | nil => intro b a h; simp [collapseSpacesAux] at h
  | cons c cs ih =>
    intro b a h
    simp only [collapseSpacesAux] at h
    by_cases hc : c = ' '
    · rw [if_pos hc] at h
      split at h
      · exact List.mem_cons_of_mem _ (ih _ _ h)
      · rcases List.mem_cons.mp h with h1 | h1
        · subst h1; exact hc ▸ List.mem_cons_self _ _
        · exact List.mem_cons_of_mem _ (ih _ _ h1)
    · rw [if_neg hc] at h
      rcases List.mem_cons.mp h with h1 | h1
      · exact h1 ▸ List.mem_cons_self _ _
      · exact List.mem_cons_of_mem _ (ih _ _ h1)

theorem mem_toLowerCaseWithSpaces (s : Str) (a : Char)
    (h : a ∈ StringCase.toLowerCaseWithSpaces s) : a = ' ' ∨ isAlnumJs a = true := by
  unfold StringCase.toLowerCaseWithSpaces collapseSpaces at h
  have h1 := mem_collapseSpacesAux _ _ _ h
  rcases List.mem_map.mp h1 with ⟨b, hb, hba⟩
  subst hba
  have h2 := mem_trimSpaces _ _ hb
  rcases mem_addCamelSpaces _ _ h2 with h3 | h3
  · rcases mem_replaceNonAlnum _ _ h3 with h4 | h4
    · exact Or.inr (isAlnumJs_toLower b h4)
    · subst h4; exact Or.inl (by decide)
  · subst h3; exact Or.inl (by decide)

/-! ### Token-freeness of the replacement values -/

theorem tokenFree_of_no_underscore (s : Str) (h : ∀ a ∈ s, a ≠ '_') :
    tokenFree s = true := by
  rw [tokenFree_iff]
  intro t ht
  have hall : ∀ t ∈ VALID_PLACEHOLDERS, ('_' : Char) ∈ t := by decide
  cases hts : hasSubstr t s with
  | false => rfl
  | true => exact absurd rfl (h '_' (hasSubstr_mem t s hts '_' (hall t ht)))

theorem tokenFree_of_no_upper (s : Str) (h : ∀ a ∈ s, isUpperJs a = false) :
    tokenFree s = true := by
  rw [tokenFree_iff]
  intro t ht
  have hall : ∀ t ∈ VALID_PLACEHOLDERS, ('N' : Char) ∈ t := by decide
  cases hts : hasSubstr t s with
  | false => rfl
  | true =>
    have hN := h 'N' (hasSubstr_mem t s hts 'N' (hall t ht))
    exact absurd hN (by decide)

theorem tokenFree_of_no_lower (s : Str) (h : ∀ a ∈ s, isLowerJs a = false) :
    tokenFree s = true := by
  rw [tokenFree_iff]
  intro t ht
  have hall : ∀ t ∈ VALID_PLACEHOLDERS, ('e' : Char) ∈ t := by decide
  cases hts : hasSubstr t s with
  | false => rfl
  | true =>
    have he := h 'e' (hasSubstr_mem t s hts 'e' (hall t ht))
    exact absurd he (by decide)

/-- No replacement value built by `generateTemplateVariables` contains any of
the eight recognized placeholder tokens. -/
theorem valuesTokenFree_generate (name : Str) :
    valuesTokenFree (generateTemplateVariables name) = true := by
  unfold valuesTokenFree generateTemplateVariables
  simp only [Bool.and_eq_true]
  refine ⟨⟨⟨⟨⟨⟨⟨?_, ?_⟩, ?_⟩, ?_⟩, ?_⟩, ?_⟩, ?_⟩, ?_⟩
  · exact tokenFree_of_no_underscore _ fun a ha he => by
      subst he; exact absurd (mem_toPascalCase name '_' ha) (by decide)
  · exact tokenFree_of_no_underscore _ fun a ha he => by
      subst he; exact absurd (mem_toCamelCase name '_' ha) (by decide)
  · exact tokenFree_of_no_underscore _ fun a ha he => by
      subst he
      rcases mem_toKebabCase name '_' ha with h | h
      · exact absurd h (by decide)
      · exact absurd h (by decide)
  · exact tokenFree_of_no_upper _ fun a ha => mem_toSnakeCase name a ha
  · exact tokenFree_of_no_lower _ fun a ha => mem_toConstantCase name a ha
  · exact tokenFree_of_no_underscore _ fun a ha he => by
      subst he
      rcases mem_toTitleCase name '_' ha with h | h
      · exact absurd h (by decide)
      · exact absurd h (by decide)
  · exact tokenFree_of_no_underscore _ fun a ha he => by
      subst he; exact absurd (mem_toLowerCase name '_' ha) (by decide)
  · exact tokenFree_of_no_underscore _ fun a ha he => by
      subst he
      rcases mem_toLowerCaseWithSpaces name '_' ha with h | h
      · exact absurd h (by decide)
      · exact absurd h (by decide)

/-- C1 is false as stated: with the variable set built from the empty name
(whose values are all empty), substitution on
`"__template__templateNameToLowerCase__NameToPascalCase__"` removes the inner
LowerCase token and splices the surrounding text into a brand-new
PascalCase token, so a second substitution changes the output again. -/
theorem claim_C1_counterexample :
    replaceTemplateVariables
        (replaceTemplateVariables
          "__template__templateNameToLowerCase__NameToPascalCase__".data
          (generateTemplateVariables []))
        (generateTemplateVariables []) ≠
      replaceTemplateVariables
        "__template__templateNameToLowerCase__NameToPascalCase__".data
        (generateTemplateVariables []) := by
  decide

/-- C1 amended: substitution applied a second time returns the output
unchanged whenever that output contains no occurrence of the eight recognized
tokens; moreover no replacement value built by `generateTemplateVariables`
ever contains a recognized token.  (Unconditional idempotence fails: a
replacement step can splice surrounding text into a new token, see
`claim_C1_counterexample`.) -/
theorem claim_C1_amended (name s : Str)
    (h : tokenFree (replaceTemplateVariables s (generateTemplateVariables name)) = true) :
    replaceTemplateVariables (replaceTemplateVariables s (generateTemplateVariables name))
        (generateTemplateVariables name) =
      replaceTemplateVariables s (generateTemplateVariables name) ∧
    valuesTokenFree (generateTemplateVariables name) = true := by
  refine ⟨?_, valuesTokenFree_generate name⟩
  rw [tokenFree_iff] at h
  have h1 := h _ (show "__templateNameToPascalCase__".data ∈ VALID_PLACEHOLDERS by decide)
  have h2 := h _ (show "__templateNameToCamelCase__".data ∈ VALID_PLACEHOLDERS by decide)
  have h3 := h _ (show "__templateNameToDashCase__".data ∈ VALID_PLACEHOLDERS by decide)
  have h4 := h _ (show "__templateNameToSnakeCase__".data ∈ VALID_PLACEHOLDERS by decide)
  have h5 := h _ (show "__templateNameToConstantCase__".data ∈ VALID_PLACEHOLDERS by decide)
  have h6 := h _ (show "__templateNameToTitleCase__".data ∈ VALID_PLACEHOLDERS by decide)
  have h7 := h _ (show "__templateNameToLowerCase__".data ∈ VALID_PLACEHOLDERS by decide)
  have h8 := h _ (show "__templateNameToLowerCaseWithSpaces__".data ∈ VALID_PLACEHOLDERS by decide)
  conv_lhs => rw [replaceTemplateVariables]
  rw [replaceAll_id _ _ _ h1, replaceAll_id _ _ _ h2, replaceAll_id _ _ _ h3,
    replaceAll_id _ _ _ h4, replaceAll_id _ _ _ h5, replaceAll_id _ _ _ h6,
    replaceAll_id _ _ _ h7, replaceAll_id _ _ _ h8]

/-- Witness for `claim_C1_amended` at a concrete input. -/
theorem claim_C1_amended_witness :
    tokenFree (replaceTemplateVariables "x__templateNameToPascalCase__y".data
        (generateTemplateVariables "ab".data)) = true ∧
    (replaceTemplateVariables
        (replaceTemplateVariables "x__templateNameToPascalCase__y".data
          (generateTemplateVariables "ab".data))
        (generateTemplateVariables "ab".data) =
      replaceTemplateVariables "x__templateNameToPascalCase__y".data
        (generateTemplateVariables "ab".data) ∧
    valuesTokenFree (generateTemplateVariables "ab".data) = true) :=
  ⟨by decide, claim_C1_amended "ab".data "x__templateNameToPascalCase__y".data (by decide)⟩

/-! ### Template validator (`src/template-validator.ts`): placeholder scanning -/

/-- The literal prefix `__templateName` shared by both validator regexes. -/
def TN_PREFIX : Str := "__templateName".data

/-- The middle character class of the FILENAME regex
`/__templateName[^_]*__/g`: any character except an underscore. -/
def fileNameClass (c : Char) : Bool := decide (c ≠ '_')

/-- JS `\s` restricted to its ASCII members (space, tab, line feed, vertical
tab, form feed, carriage return); the Unicode space classes do not occur in
the inputs of interest. -/
def isJsWs (c : Char) : Bool :=
  decide (c = ' ' ∨ c = '\t' ∨ c = '\n' ∨ c = '\x0b' ∨ c = '\x0c' ∨ c = '\r')

/-- The middle character class of the CONTENT regex
`/__templateName[^_\s]*__/g`: neither underscore nor whitespace. -/
def contentClass (c : Char) : Bool := decide (c ≠ '_') && !(isJsWs c)

/-- One match attempt of `/__templateName<class>*__/` anchored at the start of
`u`: the literal prefix, a greedy class run, then two underscores; returns the
matched text and the suffix after it.  Because the class excludes `_`, greedy
backtracking never helps: a shorter run would have to be followed by `__`, but
every character of the run is not `_`; so the regex matches here exactly when
the maximal run is followed by `__`. -/
def matchAt (chClass : Char → Bool) (u : Str) : Option (Str × Str) :=
  if startsWithL TN_PREFIX u then
    let u1 := u.drop TN_PREFIX.length
    let run := u1.takeWhile chClass
    match u1.drop run.length with
    | c1 :: c2 :: rest2 =>
      if c1 = '_' ∧ c2 = '_' then some (TN_PREFIX ++ run ++ ['_', '_'], rest2)
      else none
    | _ => none
  else none

/-- `str.match(/__templateName<class>*__/g)`: leftmost, non-overlapping
matches; on failure the scan advances one character.  `fuel` bounds the scan;
each step consumes at least one character, so `s.length` is always enough. -/
def scanMatchesFuel (chClass : Char → Bool) : Nat → Str → List Str
  | 0, _ => []
  | _ + 1, [] => []
  | fuel + 1, c :: cs =>
    match matchAt chClass (c :: cs) with
    | some (m, rest) => m :: scanMatchesFuel chClass fuel rest
    | none => scanMatchesFuel chClass fuel cs

def scanMatches (chClass : Char → Bool) (s : Str) : List Str :=
  scanMatchesFuel chClass s.length s

/-- Validator findings.  The source accumulates human-readable strings; each
constructor corresponds to one of the message templates, carrying the data
interpolated into it. -/
inductive VMsg where
  | invalidFilename (fileName mtext : Str)
  | incompleteFilename (fileName : Str)
  | invalidContent (fileName mtext : Str)
  | incompleteContent (fileName : Str)
  | cannotAccess
  | emptyDir (dirPath : List Str)
  | binaryFile (fileName : Str)
  | cannotRead (fileName : Str)
  | mixedLineEndings (fileName : Str)
  | largeFile (fileName : Str)
deriving DecidableEq, Repr

/-- The `ValidationResult` record of `src/template-validator.ts`. -/
structure ValidationResult where
  valid : Bool
  errors : List VMsg
  warnings : List VMsg
deriving DecidableEq, Repr

/-- The fresh result created at the top of `TemplateValidator.validate`. -/
def emptyValidationResult : ValidationResult :=
  { valid := true, errors := [], warnings := [] }

def pushError (r : ValidationResult) (e : VMsg) : ValidationResult :=
  { r with errors := r.errors ++ [e] }

def pushWarning (r : ValidationResult) (w : VMsg) : ValidationResult :=
  { r with warnings := r.warnings ++ [w] }

/-- The shared loop body of both validator match loops: one error per match
that is not a recognized placeholder. -/
def pushInvalidMatches (mk : Str → VMsg) (ms : List Str) (res : ValidationResult) :
    ValidationResult :=
  ms.foldl (fun r m => if m ∈ VALID_PLACEHOLDERS then r else pushError r (mk m)) res

/-- `TemplateValidator.validateFileName`: scan the file name with the
`[^_]*`-class regex, record one invalid-placeholder error per unrecognized
match, and one incomplete-placeholder error when the name contains the literal
prefix but the regex finds no match at all. -/
def validateFileName (fileName : Str) (res : ValidationResult) : ValidationResult :=
  let ms := scanMatches fileNameClass fileName
  let res1 := pushInvalidMatches (VMsg.invalidFilename fileName) ms res
  if hasSubstr TN_PREFIX fileName && ms.isEmpty then
    pushError res1 (VMsg.incompleteFilename fileName)
  else res1

/-- The error list described by claim C4, following the spec text: matches of
prefix + NON-UNDERSCORE/NON-WHITESPACE characters + `__` (the content-regex
class), one invalid error per unrecognized match, and an incomplete error when
the prefix occurs but no such match exists. -/
def fileNameErrorsClaim (fileName : Str) : List VMsg :=
  (((scanMatches contentClass fileName).filter
      fun m => decide (m ∉ VALID_PLACEHOLDERS)).map
    fun m => VMsg.invalidFilename fileName m) ++
  (if hasSubstr TN_PREFIX fileName && (scanMatches contentClass fileName).isEmpty then
    [VMsg.incompleteFilename fileName]
  else [])

/-- The amended description: same shape, but with the class the code actually
uses for file names (`[^_]*`, whitespace permitted). -/
def fileNameErrorsAmended (fileName : Str) : List VMsg :=
  (((scanMatches fileNameClass fileName).filter
      fun m => decide (m ∉ VALID_PLACEHOLDERS)).map
    fun m => VMsg.invalidFilename fileName m) ++
  (if hasSubstr TN_PREFIX fileName && (scanMatches fileNameClass fileName).isEmpty then
    [VMsg.incompleteFilename fileName]
  else [])

theorem pushInvalidMatches_spec (mk : Str → VMsg) :
    ∀ (ms : List Str) (res : ValidationResult),
      (pushInvalidMatches mk ms res).errors =
        res.errors ++ ((ms.filter fun m => decide (m ∉ VALID_PLACEHOLDERS)).map mk) ∧
      (pushInvalidMatches mk ms res).warnings = res.warnings ∧
      (pushInvalidMatches mk ms res).valid = res.valid := by
  intro ms
  induction ms with
  | nil => intro res; simp [pushInvalidMatches]
  | cons m rest ih =>
    intro res
    by_cases hm : m ∈ VALID_PLACEHOLDERS
    · have hstep : pushInvalidMatches mk (m :: rest) res = pushInvalidMatches mk rest res := by
        simp [pushInvalidMatches, hm]
      rw [hstep]
      rcases ih res with ⟨h1, h2, h3⟩
      refine ⟨?_, h2, h3⟩
      rw [h1]
      simp [hm]
    · have hstep : pushInvalidMatches mk (m :: rest) res =
          pushInvalidMatches mk rest (pushError res (mk m)) := by
        simp [pushInvalidMatches, hm]
      rw [hstep]
      rcases ih (pushError res (mk m)) with ⟨h1, h2, h3⟩
      refine ⟨?_, ?_, ?_⟩
      · rw [h1]; simp [pushError, hm]
      · rw [h2]; simp [pushError]
      · rw [h3]; simp [pushError]

/-- C4 is false as stated: on the file name `"__templateName x__"` the code's
filename regex `[^_]*` accepts the space and records an
invalid-placeholder error, while the claim's non-whitespace pattern finds no
match and predicts an incomplete-placeholder error instead. -/
theorem claim_C4_counterexample :
    ¬ ((validateFileName "__templateName x__".data emptyValidationResult).errors
        = fileNameErrorsClaim "__templateName x__".data) := by
  decide

/-- C4 amended: for every file name, `validateFileName` appends exactly one
invalid-placeholder error per unrecognized match of prefix + NON-UNDERSCORE
characters (whitespace permitted) + `__`, and one incomplete-placeholder error
when the name contains the literal prefix but that pattern finds no match;
warnings are untouched. -/
theorem claim_C4_amended (fileName : Str) (res : ValidationResult) :
    (validateFileName fileName res).errors = res.errors ++ fileNameErrorsAmended fileName ∧
    (validateFileName fileName res).warnings = res.warnings := by
  unfold validateFileName fileNameErrorsAmended
  rcases pushInvalidMatches_spec (VMsg.invalidFilename fileName)
    (scanMatches fileNameClass fileName) res with ⟨h1, h2, _⟩
  by_cases hc : hasSubstr TN_PREFIX fileName && (scanMatches fileNameClass fileName).isEmpty
  · simp only [hc, if_true]
    refine ⟨?_, ?_⟩
    · simp [pushError, h1]
    · simp [pushError, h2]
  · simp only [Bool.not_eq_true] at hc
    simp only [hc, Bool.false_eq_true, if_false]
    exact ⟨by rw [h1]; simp, h2⟩

/-! ### File-content validation (`TemplateValidator.validateFileContent`) -/

/-- One scan step of the incomplete-placeholder regex
`/__templateName(?!.*__)/g`: an occurrence of the literal prefix matches when
no `__` follows it on the same line (`.` does not cross the line terminators
`\n`, `\r`; the supplementary Unicode terminators do not occur in the inputs
of interest).  On a failed attempt the scan advances one character; on a match
it advances past the 14-character literal. -/
def incompleteScanFuel : Nat → Str → List Str
  | 0, _ => []
  | _ + 1, [] => []
  | fuel + 1, c :: cs =>
    if startsWithL TN_PREFIX (c :: cs) &&
        !(hasSubstr ['_', '_']
          (((c :: cs).drop TN_PREFIX.length).takeWhile
            fun ch => decide (¬(ch = '\n' ∨ ch = '\r')))) then
      TN_PREFIX :: incompleteScanFuel fuel ((c :: cs).drop TN_PREFIX.length)
    else incompleteScanFuel fuel cs

def incompleteOccs (s : Str) : List Str := incompleteScanFuel s.length s

/-- `TemplateValidator.validateFileContent`: invalid placeholders (content
class `[^_\s]*`), one incomplete-placeholder error when the lookahead scan
finds any occurrence (the matched text is always the literal prefix itself),
a mixed-line-endings warning, and a large-file warning. -/
def validateFileContent (content fileName : Str) (res : ValidationResult) : ValidationResult :=
  let res1 := pushInvalidMatches (VMsg.invalidContent fileName)
    (scanMatches contentClass content) res
  let res2 := if (incompleteOccs content).isEmpty then res1
    else pushError res1 (VMsg.incompleteContent fileName)
  let res3 := if hasSubstr ['\r', '\n'] content &&
      hasSubstr ['\n'] (replaceAll ['\r', '\n'] [] content) then
    pushWarning res2 (VMsg.mixedLineEndings fileName)
  else res2
  if content.length > 1000000 then pushWarning res3 (VMsg.largeFile fileName) else res3

/-- The binary extension list of `TemplateValidator.isBinaryFile`. -/
def BINARY_EXTENSIONS : List Str :=
  [ ".jpg".data, ".jpeg".data, ".png".data, ".gif".data, ".bmp".data, ".ico".data
  , ".svg".data, ".pdf".data, ".doc".data, ".docx".data, ".xls".data, ".xlsx".data
  , ".zip".data, ".tar".data, ".gz".data, ".rar".data, ".exe".data, ".dll".data
  , ".so".data, ".dylib".data, ".mp3".data, ".mp4".data, ".avi".data, ".mov".data
  , ".ttf".data, ".otf".data, ".woff".data, ".woff2".data ]

/-- `path.extname`: the suffix from the last dot, empty when there is no dot
or the only dot is the leading character. -/
def extname (fileName : Str) : Str :=
  let pre := fileName.reverse.takeWhile fun c => decide (c ≠ '.')
  if pre.length + 1 < fileName.length then '.' :: pre.reverse else []

def isBinaryFile (fileName : Str) : Bool :=
  decide ((extname fileName).map Char.toLower ∈ BINARY_EXTENSIONS)

/-! ### File-store model

A filesystem is a finite tree: named entries in a directory, in listing
order.  `file none` models a file that exists (so `stat`/existence checks
succeed) but whose contents cannot be read as text (`readFile` rejects). -/

inductive FsEntry where
  | file (content : Option Str)
  | dir (entries : List (Str × FsEntry))

abbrev Fs := List (Str × FsEntry)

abbrev Path := List Str

def lookupE (n : Str) : Fs → Option FsEntry
  | [] => none
  | (m, e) :: fs => if n = m then some e else lookupE n fs

/-- Resolve a path (list of segments) against a directory listing. -/
def getEntry : Path → Fs → Option FsEntry
  | [], fs => some (.dir fs)
  | seg :: rest, fs =>
    match lookupE seg fs with
    | none => none
    | some e =>
      match rest with
      | [] => some e
      | _ :: _ =>
        match e with
        | .dir es => getEntry rest es
        | .file _ => none

/-- `FileUtils.pathExists`. -/
def pathExistsFs (fs : Fs) (p : Path) : Bool := (getEntry p fs).isSome

/-- `path.basename` on a segment path. -/
def basenameP (p : Path) : Str := p.getLastD []

/-- `TemplateValidator.validateFile`: validate the name; skip content checks
for binary extensions (warning); content-check readable text; downgrade an
unreadable file to a warning. -/
def validateFile (fileName : Str) (content : Option Str) (res : ValidationResult) :
    ValidationResult :=
  let res1 := validateFileName fileName res
  if isBinaryFile fileName then pushWarning res1 (VMsg.binaryFile fileName)
  else
    match content with
    | some c => validateFileContent c fileName res1
    | none => pushWarning res1 (VMsg.cannotRead fileName)

/-- The recursive walk of `TemplateValidator.validateDirectory`, with the
per-child-directory empty warning inlined at the point of recursion (the
source performs it at the top of the recursive call; the order of recorded
findings is identical).  The filesystem is static during validation, so
walking the subtree snapshot coincides with the per-path re-reads of the
source. -/
def validateItems (dirPath : Path) : List (Str × FsEntry) → ValidationResult → ValidationResult
  | [], res => res
  | (name, FsEntry.dir es2) :: rest, res =>
    validateItems dirPath rest
      (validateItems (dirPath ++ [name]) es2
        (if es2.isEmpty then pushWarning res (VMsg.emptyDir (dirPath ++ [name])) else res))
  | (name, FsEntry.file c) :: rest, res =>
    validateItems dirPath rest (validateFile name c res)
termination_by l => sizeOf l
decreasing_by all_goals (simp; try omega)

/-- `TemplateValidator.validateDirectory`. -/
def validateDirectory (dirPath : Path) (es : List (Str × FsEntry)) (res : ValidationResult) :
    ValidationResult :=
  let res1 := if es.isEmpty then pushWarning res (VMsg.emptyDir dirPath) else res
  validateItems dirPath es res1

/-- The final assignment of `TemplateValidator.validate`:
`result.valid = result.errors.length === 0`. -/
def finalizeValid (r : ValidationResult) : ValidationResult :=
  { r with valid := r.errors.isEmpty }

/-- `TemplateValidator.validate`: stat the template path (failure records one
cannot-access error), dispatch on file/directory, then always recompute
`valid` as emptiness of the error list. -/
def validate (fs : Fs) (templatePath : Path) : ValidationResult :=
  finalizeValid
    (match getEntry templatePath fs with
    | none =>
      pushError { emptyValidationResult with valid := false } VMsg.cannotAccess
    | some (FsEntry.dir es) => validateDirectory templatePath es emptyValidationResult
    | some (FsEntry.file c) => validateFile (basenameP templatePath) c emptyValidationResult)

/-- C7: `valid` is true exactly when the error list is empty — warnings alone
never make a template invalid — and validating an empty directory yields
`valid = true` with exactly one empty-directory warning. -/
theorem claim_C7_valid_iff :
    (∀ (fs : Fs) (templatePath : Path),
      (validate fs templatePath).valid = true ↔ (validate fs templatePath).errors = []) ∧
    validate [("d".data, FsEntry.dir [])] ["d".data] =
      { valid := true, errors := [], warnings := [VMsg.emptyDir ["d".data]] } := by
  constructor
  · intro fs p
    have hgen : ∀ r : ValidationResult,
        (finalizeValid r).valid = true ↔ (finalizeValid r).errors = [] := by
      intro r
      simp [finalizeValid, List.isEmpty_iff]
    exact hgen _
  · simp [validate, finalizeValid, validateDirectory, validateItems, getEntry, lookupE,
      emptyValidationResult, pushWarning]

theorem errors_pushWarning (r : ValidationResult) (w : VMsg) :
    (pushWarning r w).errors = r.errors := rfl

theorem validateFileName_cannotAccess (fileName : Str) (res : ValidationResult) :
    VMsg.cannotAccess ∈ (validateFileName fileName res).errors ↔
      VMsg.cannotAccess ∈ res.errors := by
  rcases pushInvalidMatches_spec (VMsg.invalidFilename fileName)
    (scanMatches fileNameClass fileName) res with ⟨h1, _, _⟩
  simp only [validateFileName]
  split <;> simp [pushError, h1]

theorem validateFileContent_cannotAccess (content fileName : Str) (res : ValidationResult) :
    VMsg.cannotAccess ∈ (validateFileContent content fileName res).errors ↔
      VMsg.cannotAccess ∈ res.errors := by
  rcases pushInvalidMatches_spec (VMsg.invalidContent fileName)
    (scanMatches contentClass content) res with ⟨h1, _, _⟩
  simp only [validateFileContent]
  split <;> split <;> split <;> simp [pushWarning, pushError, h1]

theorem validateFile_cannotAccess (fileName : Str) (content : Option Str)
    (res : ValidationResult) :
    VMsg.cannotAccess ∈ (validateFile fileName content res).errors ↔
      VMsg.cannotAccess ∈ res.errors := by
  simp only [validateFile]
  split
  · simp [pushWarning, validateFileName_cannotAccess]
  · split
    · rw [validateFileContent_cannotAccess]
      exact validateFileName_cannotAccess _ _
    · rw [errors_pushWarning]
      exact validateFileName_cannotAccess _ _

theorem validateItems_cannotAccess_aux (n : Nat) :
    ∀ (l : List (Str × FsEntry)), sizeOf l ≤ n →
      ∀ (dirPath : Path) (res : ValidationResult),
        VMsg.cannotAccess ∈ (validateItems dirPath l res).errors ↔
          VMsg.cannotAccess ∈ res.errors := by
  induction n with
  | zero =>
    intro l hl
    cases l with
    | nil => simp at hl
    | cons x rest => simp at hl
  | succ n ih =>
    intro l hl dirPath res
    match l with
    | [] => simp [validateItems]
    | (name, FsEntry.dir es2) :: rest =>
      have hsz : sizeOf rest ≤ n ∧ sizeOf es2 ≤ n := by
        simp at hl
        omega
      rw [validateItems, ih rest hsz.1, ih es2 hsz.2]
      split <;> simp [pushWarning]
    | (name, FsEntry.file c) :: rest =>
      have hsz : sizeOf rest ≤ n := by
        simp at hl
        omega
      rw [validateItems, ih rest hsz]
      exact validateFile_cannotAccess _ _ _

theorem validateItems_cannotAccess (dirPath : Path) (l : List (Str × FsEntry))
    (res : ValidationResult) :
    VMsg.cannotAccess ∈ (validateItems dirPath l res).errors ↔
      VMsg.cannotAccess ∈ res.errors :=
  validateItems_cannotAccess_aux (sizeOf l) l (Nat.le_refl _) dirPath res

theorem validateDirectory_cannotAccess (dirPath : Path) (es : List (Str × FsEntry))
    (res : ValidationResult) :
    VMsg.cannotAccess ∈ (validateDirectory dirPath es res).errors ↔
      VMsg.cannotAccess ∈ res.errors := by
  simp only [validateDirectory]
  rw [validateItems_cannotAccess]
  split <;> simp [pushWarning]

/-- C10: an unreadable (non-binary) file contributes a cannot-read WARNING and
no error — its errors are exactly the filename-check errors, so such a
template can still be reported valid — and the cannot-access error appears in
a validation result exactly when the stat of the top-level template path
itself fails. -/
theorem claim_C10_cannot_read_is_warning :
    (∀ (fileName : Str) (res : ValidationResult), isBinaryFile fileName = false →
      (validateFile fileName none res).errors = (validateFileName fileName res).errors ∧
      (validateFile fileName none res).warnings =
        (validateFileName fileName res).warnings ++ [VMsg.cannotRead fileName]) ∧
    (∀ (fs : Fs) (p : Path),
      VMsg.cannotAccess ∈ (validate fs p).errors ↔ getEntry p fs = none) := by
  constructor
  · intro fileName res hbin
    simp only [validateFile, hbin, Bool.false_eq_true, if_false]
    exact ⟨rfl, rfl⟩
  · intro fs p
    simp only [validate]
    cases hg : getEntry p fs with
    | none => simp [finalizeValid, pushError, emptyValidationResult]
    | some e =>
      cases e with
      | dir es =>
        simp [finalizeValid, validateDirectory_cannotAccess, emptyValidationResult]
      | file c =>
        simp [finalizeValid, validateFile_cannotAccess, emptyValidationResult]

/-- Witness for `claim_C10_cannot_read_is_warning` at a concrete input. -/
theorem claim_C10_witness :
    isBinaryFile "notes.txt".data = false ∧
    ((validateFile "notes.txt".data none emptyValidationResult).errors =
        (validateFileName "notes.txt".data emptyValidationResult).errors ∧
      (validateFile "notes.txt".data none emptyValidationResult).warnings =
        (validateFileName "notes.txt".data emptyValidationResult).warnings ++
          [VMsg.cannotRead "notes.txt".data]) :=
  ⟨by decide, claim_C10_cannot_read_is_warning.1 "notes.txt".data emptyValidationResult (by decide)⟩

/-! ### POSIX path strings (`path.normalize`, `path.resolve`, `path.join`)

Used by `Validators.validatePath` / `Validators.isPathWithinDirectory` and by
`TemplateManager.generateFromTemplate`.  Trailing-slash preservation is
omitted: it cannot affect the three checks of `validatePath` (a trailing `/`
introduces no `..`, and the first character is unchanged). -/

def splitSegsAux (cur : Str) : Str → List Str
  | [] => if cur = [] then [] else [cur.reverse]
  | c :: cs =>
    if c = '/' then
      if cur = [] then splitSegsAux [] cs
      else cur.reverse :: splitSegsAux [] cs
    else splitSegsAux (c :: cur) cs

/-- The nonempty segments of a path string, in order. -/
def splitSegs (s : Str) : List Str := splitSegsAux [] s

/-- The segment-stack pass of `path.posix.normalize`: drop `.`; `..` pops a
previous segment, accumulates at the front of a relative path, and is dropped
at the root of an absolute one. -/
def normSegsAux (isAbs : Bool) (stack : List Str) : List Str → List Str
  | [] => stack.reverse
  | seg :: rest =>
    if seg = ".".data then normSegsAux isAbs stack rest
    else if seg = "..".data then
      match stack with
      | top :: stack2 =>
        if top = "..".data then normSegsAux isAbs (seg :: top :: stack2) rest
        else normSegsAux isAbs stack2 rest
      | [] => if isAbs then normSegsAux isAbs [] rest else normSegsAux isAbs [seg] rest
    else normSegsAux isAbs (seg :: stack) rest

def joinSegs (segs : List Str) : Str := List.intercalate ['/'] segs

/-- `path.posix.normalize`. -/
def normalizePosix (s : Str) : Str :=
  let isAbs := startsWithL ['/'] s
  let segs := normSegsAux isAbs [] (splitSegs s)
  if isAbs then '/' :: joinSegs segs
  else if segs = [] then ['.'] else joinSegs segs

/-- `path.join(a, b)` for a nonempty `a`: concatenate with a separator and
normalize. -/
def joinPosix (a b : Str) : Str := normalizePosix (a ++ '/' :: b)

/-- `path.resolve` with the working directory modelled as the root `/`. -/
def resolvePosix (p : Str) : Str :=
  if startsWithL ['/'] p then normalizePosix p else normalizePosix ('/' :: p)

/-- Errors thrown by the generation pipeline; each constructor stands for one
of the thrown `Error` messages, carrying the interpolated data. -/
inductive GenError where
  | invalidPath (p : Str)
  | nullBytes (p : Str)
  | invalidTemplatePath (name : Str)
  | templateNotFound (name : Str)
  | ioError
  | fuelExhausted
deriving DecidableEq, Repr

/-- `Validators.validatePath` from `src/validators.ts`: reject when the
normalized path contains `..` or starts with `/` or `~`, then reject null
bytes in the raw input. -/
def validatePathE (inputPath : Str) : Except GenError Unit :=
  let normalizedPath := normalizePosix inputPath
  if hasSubstr "..".data normalizedPath || startsWithL ['/'] normalizedPath ||
      startsWithL ['~'] normalizedPath then
    .error (.invalidPath inputPath)
  else if hasSubstr ['\x00'] inputPath then
    .error (.nullBytes inputPath)
  else .ok ()

/-- `Validators.isPathWithinDirectory`: resolve both paths and compare with
`String.prototype.startsWith`. -/
def isPathWithinDirectory (filePath allowedDir : Str) : Bool :=
  startsWithL (resolvePosix allowedDir) (resolvePosix filePath)

/-! ### File-store mutation (`FileUtils` / `fs.promises`) -/

/-- Replace the entry named `n` in place, or append it at the end of the
listing (a fresh entry lists after its siblings). -/
def setE (n : Str) (e : FsEntry) : Fs → Fs
  | [] => [(n, e)]
  | (m, e0) :: fs => if n = m then (n, e) :: fs else (m, e0) :: setE n e fs

/-- `fs.writeFile`: requires every ancestor to exist as a directory and the
target itself not to be a directory. -/
def writeFileFs : Path → Str → Fs → Option Fs
  | [], _, _ => none
  | [a], c, fs =>
    match lookupE a fs with
    | some (FsEntry.dir _) => none
    | _ => some (setE a (FsEntry.file (some c)) fs)
  | a :: b :: rest, c, fs =>
    match lookupE a fs with
    | some (FsEntry.dir es) =>
      (writeFileFs (b :: rest) c es).map fun es2 => setE a (FsEntry.dir es2) fs
    | _ => none

/-- `FileUtils.ensureDir` (`fs.mkdir` recursive): create missing directories
along the path; fail if a file is in the way. -/
def ensureDirFs : Path → Fs → Option Fs
  | [], fs => some fs
  | a :: rest, fs =>
    match lookupE a fs with
    | some (FsEntry.dir es) => (ensureDirFs rest es).map fun es2 => setE a (FsEntry.dir es2) fs
    | some (FsEntry.file _) => none
    | none => (ensureDirFs rest []).map fun es2 => setE a (FsEntry.dir es2) fs

/-- `fs.readFile` with `utf-8`: succeeds only on a readable file. -/
def readFileFs (fs : Fs) (p : Path) : Option Str :=
  match getEntry p fs with
  | some (FsEntry.file (some c)) => some c
  | _ => none

/-- `fs.readdir`: the entry names of a directory, in listing order. -/
def readdirFs (fs : Fs) (p : Path) : Option (List Str) :=
  match getEntry p fs with
  | some (FsEntry.dir es) => some (es.map Prod.fst)
  | _ => none

/-! ### The template tree walker (`TemplateManager`, `src/unnamed/part_008`) -/

inductive GenAction where
  | create
  | overwrite
  | skip
deriving DecidableEq, Repr

/-- `GenerationResult`: one entry per processed file. -/
structure GenerationResult where
  path : Path
  action : GenAction
deriving DecidableEq, Repr

/-- `TemplateManager.processFile`: read the source, substitute placeholders in
content and (unless a target name was precomputed) in the base name, classify
by existence of the target path, then (unless dry-run) ensure the target
directory and write.  The `GenerationResult` is recorded in every mode. -/
def processFile (fs : Fs) (sourcePath targetDir : Path) (vars : TemplateVariables)
    (targetFileName : Option Str) (dryRun : Bool) :
    Except GenError (Fs × GenerationResult) :=
  match readFileFs fs sourcePath with
  | none => .error .ioError
  | some content =>
    let processedContent := replaceTemplateVariables content vars
    let fileName :=
      match targetFileName with
      | some n => n
      | none => replaceTemplateVariables (basenameP sourcePath) vars
    let targetPath := targetDir ++ [fileName]
    let action : GenAction := if pathExistsFs fs targetPath then .overwrite else .create
    if dryRun then .ok (fs, ⟨targetPath, action⟩)
    else
      match ensureDirFs targetDir fs with
      | none => .error .ioError
      | some fs1 =>
        match writeFileFs targetPath processedContent fs1 with
        | none => .error .ioError
        | some fs2 => .ok (fs2, ⟨targetPath, action⟩)

mutual

/-- `TemplateManager.processDirectory`: list the source directory and process
its entries in order.  `fuel` bounds the recursion depth: the source can
recurse forever when the target lies inside the template (each write extends
what a later `readdir` returns), which the model reports as
`fuelExhausted`. -/
def processDirectory (fuel : Nat) (fs : Fs) (sourcePath targetDir : Path)
    (vars : TemplateVariables) (dryRun : Bool) :
    Except GenError (Fs × List GenerationResult) :=
  match fuel with
  | 0 => .error .fuelExhausted
  | fuel + 1 =>
    match readdirFs fs sourcePath with
    | none => .error .ioError
    | some items => processItems fuel items fs sourcePath targetDir vars dryRun

/-- The body of the `for` loop of `processDirectory`: substitute placeholders
in the entry name, recurse into directories (creating the target directory
first unless dry-run), process files. -/
def processItems (fuel : Nat) (items : List Str) (fs : Fs) (sourcePath targetDir : Path)
    (vars : TemplateVariables) (dryRun : Bool) :
    Except GenError (Fs × List GenerationResult) :=
  match fuel with
  | 0 => .error .fuelExhausted
  | fuel + 1 =>
    match items with
    | [] => .ok (fs, [])
    | item :: rest =>
      let sourceItemPath := sourcePath ++ [item]
      let targetItemName := replaceTemplateVariables item vars
      let targetItemPath := targetDir ++ [targetItemName]
      match getEntry sourceItemPath fs with
      | some (FsEntry.dir _) =>
        match (if dryRun then some fs else ensureDirFs targetItemPath fs) with
        | none => .error .ioError
        | some fs1 =>
          match processDirectory fuel fs1 sourceItemPath targetItemPath vars dryRun with
          | .error e => .error e
          | .ok (fs2, rs1) =>
            match processItems fuel rest fs2 sourcePath targetDir vars dryRun with
            | .error e => .error e
            | .ok (fs3, rs2) => .ok (fs3, rs1 ++ rs2)
      | some (FsEntry.file _) =>
        match processFile fs sourceItemPath targetDir vars (some targetItemName) dryRun with
        | .error e => .error e
        | .ok (fs1, r) =>
          match processItems fuel rest fs1 sourcePath targetDir vars dryRun with
          | .error e => .error e
          | .ok (fs2, rs) => .ok (fs2, r :: rs)
      | none => .error .ioError

end

/-- The segment path a (normalized) relative path string denotes in the
store. -/
def segsOf (s : Str) : Path := splitSegs s

/-- `TemplateManager.generateFromTemplate`: validate the template name, join
it under the templates root and check containment, build the variable set,
check existence, then walk.  A directory template gains a dedicated
`PascalCase(targetName)` container under `targetDir`.  Progress reporting and
the dry-run console listing are read-only observers and are omitted. -/
def generateFromTemplate (templatesDir : Str) (fuel : Nat) (fs : Fs)
    (templateName targetName : Str) (targetDir : Path) (dryRun : Bool) :
    Except GenError (Fs × List GenerationResult) :=
  match validatePathE templateName with
  | .error e => .error e
  | .ok _ =>
    let templatePathStr := joinPosix templatesDir templateName
    if !(isPathWithinDirectory templatePathStr templatesDir) then
      .error (.invalidTemplatePath templateName)
    else
      let vars := generateTemplateVariables targetName
      let templatePath := segsOf templatePathStr
      if !(pathExistsFs fs templatePath) then
        .error (.templateNotFound templateName)
      else
        match getEntry templatePath fs with
        | some (FsEntry.dir _) =>
          let componentDir := targetDir ++ [vars.templateNameToPascalCase]
          match (if dryRun then some fs else ensureDirFs componentDir fs) with
          | none => .error .ioError
          | some fs1 => processDirectory fuel fs1 templatePath componentDir vars dryRun
        | some (FsEntry.file _) =>
          match processFile fs templatePath targetDir vars none dryRun with
          | .error e => .error e
          | .ok (fs1, r) => .ok (fs1, [r])
        | none => .error .ioError

/-- Extract the recorded sequence of a run, if it succeeded. -/
def resultsOf (x : Except GenError (Fs × List GenerationResult)) :
    Option (List GenerationResult) :=
  match x with
  | .ok (_, rs) => some rs
  | .error _ => none

/-! ### C5: input validation and not-found behaviour of the walker -/

/-- C5: a template name whose normalized form contains `..` or starts with `/`
or `~` makes `generateFromTemplate` fail with the invalid-path input error
before any file-store operation (in this pure model an error run returns no
store, leaving the caller's store untouched); and when the checks pass but the
resolved template path does not exist, the run fails with a template-not-found
error naming the template. -/
theorem claim_C5_validation (templatesDir : Str) (fuel : Nat) (fs : Fs)
    (templateName targetName : Str) (targetDir : Path) (dryRun : Bool) :
    ((hasSubstr "..".data (normalizePosix templateName) ||
        startsWithL ['/'] (normalizePosix templateName) ||
        startsWithL ['~'] (normalizePosix templateName)) = true →
      generateFromTemplate templatesDir fuel fs templateName targetName targetDir dryRun =
        .error (.invalidPath templateName)) ∧
    (validatePathE templateName = .ok () →
      isPathWithinDirectory (joinPosix templatesDir templateName) templatesDir = true →
      pathExistsFs fs (segsOf (joinPosix templatesDir templateName)) = false →
      generateFromTemplate templatesDir fuel fs templateName targetName targetDir dryRun =
        .error (.templateNotFound templateName)) := by
  constructor
  · intro htrav
    simp [generateFromTemplate, validatePathE, htrav]
  · intro hvp hwithin hnotexists
    simp [generateFromTemplate, hvp, hwithin, hnotexists]

/-- Witness for `claim_C5_validation` at concrete inputs. -/
theorem claim_C5_witness :
    ((hasSubstr "..".data (normalizePosix "../secret".data) ||
        startsWithL ['/'] (normalizePosix "../secret".data) ||
        startsWithL ['~'] (normalizePosix "../secret".data)) = true ∧
      generateFromTemplate ".template".data 5 [] "../secret".data "X".data [] false =
        .error (.invalidPath "../secret".data)) ∧
    (validatePathE "ghost".data = .ok () ∧
      isPathWithinDirectory (joinPosix ".template".data "ghost".data) ".template".data = true ∧
      pathExistsFs [] (segsOf (joinPosix ".template".data "ghost".data)) = false ∧
      generateFromTemplate ".template".data 5 [] "ghost".data "X".data [] false =
        .error (.templateNotFound "ghost".data)) :=
  ⟨⟨by decide,
    (claim_C5_validation ".template".data 5 [] "../secret".data "X".data [] false).1 (by decide)⟩,
   ⟨rfl, by decide, by decide,
    (claim_C5_validation ".template".data 5 [] "ghost".data "X".data [] false).2
      rfl (by decide) (by decide)⟩⟩

/-! ### C9: recorded actions are only create/overwrite -/

theorem action_ne_skip (a : GenAction) (h : a ≠ GenAction.skip) :
    a = GenAction.create ∨ a = GenAction.overwrite := by
  cases a <;> simp_all

/-- The target file name computed by `processFile`. -/
def processFileName (src : Path) (vars : TemplateVariables) (tfn : Option Str) : Str :=
  match tfn with
  | some n => n
  | none => replaceTemplateVariables (basenameP src) vars

theorem processFile_ok_shape (fs : Fs) (src tgt : Path) (vars : TemplateVariables)
    (tfn : Option Str) (dry : Bool) (fsOut : Fs) (r : GenerationResult)
    (h : processFile fs src tgt vars tfn dry = .ok (fsOut, r)) :
    r = ⟨tgt ++ [processFileName src vars tfn],
      if pathExistsFs fs (tgt ++ [processFileName src vars tfn]) then GenAction.overwrite
      else GenAction.create⟩ := by
  unfold processFile at h
  cases hrf : readFileFs fs src with
  | none => rw [hrf] at h; simp at h
  | some content =>
    rw [hrf] at h
    cases tfn with
    | some n =>
      simp only [processFileName]
      by_cases hd : dry = true
      · simp only [hd, if_true] at h
        simp only [Except.ok.injEq, Prod.mk.injEq] at h
        exact h.2.symm
      · simp only [Bool.not_eq_true] at hd
        simp only [hd, Bool.false_eq_true, if_false] at h
        split at h
        · simp at h
        · split at h
          · simp at h
          · simp only [Except.ok.injEq, Prod.mk.injEq] at h
            exact h.2.symm
    | none =>
      simp only [processFileName]
      by_cases hd : dry = true
      · simp only [hd, if_true] at h
        simp only [Except.ok.injEq, Prod.mk.injEq] at h
        exact h.2.symm
      · simp only [Bool.not_eq_true] at hd
        simp only [hd, Bool.false_eq_true, if_false] at h
        split at h
        · simp at h
        · split at h
          · simp at h
          · simp only [Except.ok.injEq, Prod.mk.injEq] at h
            exact h.2.symm

theorem processFile_spec (fs : Fs) (src tgt : Path) (vars : TemplateVariables)
    (tfn : Option Str) (dry : Bool) (fsOut : Fs) (r : GenerationResult)
    (h : processFile fs src tgt vars tfn dry = .ok (fsOut, r)) :
    (r.action = .overwrite ↔ pathExistsFs fs r.path = true) ∧ r.action ≠ .skip := by
  have hs := processFile_ok_shape fs src tgt vars tfn dry fsOut r h
  subst hs
  by_cases hex : pathExistsFs fs (tgt ++ [processFileName src vars tfn]) = true
  · simp [hex]
  · simp only [Bool.not_eq_true] at hex
    simp [hex]

theorem processItems_nil (n : Nat) (fs : Fs) (src tgt : Path)
    (vars : TemplateVariables) (dry : Bool) :
    processItems (n + 1) [] fs src tgt vars dry = .ok (fs, []) := rfl

theorem processItems_cons (n : Nat) (item : Str) (rest : List Str) (fs : Fs)
    (src tgt : Path) (vars : TemplateVariables) (dry : Bool) :
    processItems (n + 1) (item :: rest) fs src tgt vars dry =
      match getEntry (src ++ [item]) fs with
      | some (FsEntry.dir _) =>
        match (if dry then some fs
            else ensureDirFs (tgt ++ [replaceTemplateVariables item vars]) fs) with
        | none => .error .ioError
        | some fs1 =>
          match processDirectory n fs1 (src ++ [item])
              (tgt ++ [replaceTemplateVariables item vars]) vars dry with
          | .error e => .error e
          | .ok (fs2, rs1) =>
            match processItems n rest fs2 src tgt vars dry with
            | .error e => .error e
            | .ok (fs3, rs2) => .ok (fs3, rs1 ++ rs2)
      | some (FsEntry.file _) =>
        match processFile fs (src ++ [item]) tgt vars
            (some (replaceTemplateVariables item vars)) dry with
        | .error e => .error e
        | .ok (fs1, r) =>
          match processItems n rest fs1 src tgt vars dry with
          | .error e => .error e
          | .ok (fs2, rs) => .ok (fs2, r :: rs)
      | none => .error .ioError := rfl

theorem walk_no_skip (fuel : Nat) :
    (∀ fs src tgt vars dry fsOut rs,
      processDirectory fuel fs src tgt vars dry = .ok (fsOut, rs) →
      ∀ r ∈ rs, r.action ≠ GenAction.skip) ∧
    (∀ items fs src tgt vars dry fsOut rs,
      processItems fuel items fs src tgt vars dry = .ok (fsOut, rs) →
      ∀ r ∈ rs, r.action ≠ GenAction.skip) := by
  induction fuel with
  | zero =>
    constructor
    · intro fs src tgt vars dry fsOut rs h
      simp [processDirectory] at h
    · intro items fs src tgt vars dry fsOut rs h
      simp [processItems] at h
  | succ n ih =>
    constructor
    · intro fs src tgt vars dry fsOut rs h
      rw [processDirectory] at h
      split at h
      · simp at h
      · exact ih.2 _ _ _ _ _ _ _ _ h
    · intro items fs src tgt vars dry fsOut rs h
      cases items with
      | nil =>
        rw [processItems_nil] at h
        simp only [Except.ok.injEq, Prod.mk.injEq] at h
        rcases h with ⟨_, rfl⟩
        intro r hr
        simp at hr
      | cons item rest =>
        rw [processItems_cons] at h
        cases hge : getEntry (src ++ [item]) fs with
        | none => rw [hge] at h; simp at h
        | some e =>
          rw [hge] at h
          cases e with
          | dir es =>
            simp only [] at h
            cases hfs1 : (if dry then some fs
                else ensureDirFs (tgt ++ [replaceTemplateVariables item vars]) fs) with
            | none => rw [hfs1] at h; simp at h
            | some fs1 =>
              rw [hfs1] at h
              simp only [] at h
              cases hdir : processDirectory n fs1 (src ++ [item])
                  (tgt ++ [replaceTemplateVariables item vars]) vars dry with
              | error e2 => rw [hdir] at h; simp at h
              | ok p =>
                obtain ⟨fs2, rs1⟩ := p
                rw [hdir] at h
                simp only [] at h
                cases hitems : processItems n rest fs2 src tgt vars dry with
                | error e2 => rw [hitems] at h; simp at h
                | ok q =>
                  obtain ⟨fs3, rs2⟩ := q
                  rw [hitems] at h
                  simp only [Except.ok.injEq, Prod.mk.injEq] at h
                  rcases h with ⟨_, rfl⟩
                  intro r hr
                  rcases List.mem_append.mp hr with hm | hm
                  · exact ih.1 _ _ _ _ _ _ _ hdir r hm
                  · exact ih.2 _ _ _ _ _ _ _ _ hitems r hm
          | file c0 =>
            simp only [] at h
            cases hpf : processFile fs (src ++ [item]) tgt vars
                (some (replaceTemplateVariables item vars)) dry with
            | error e2 => rw [hpf] at h; simp at h
            | ok p =>
              obtain ⟨fs1, r1⟩ := p
              rw [hpf] at h
              simp only [] at h
              cases hitems : processItems n rest fs1 src tgt vars dry with
              | error e2 => rw [hitems] at h; simp at h
              | ok q =>
                obtain ⟨fs2, rs2⟩ := q
                rw [hitems] at h
                simp only [Except.ok.injEq, Prod.mk.injEq] at h
                rcases h with ⟨_, rfl⟩
                intro r hr
                rcases List.mem_cons.mp hr with hm | hm
                · subst hm
                  exact (processFile_spec _ _ _ _ _ _ _ _ hpf).2
                · exact ih.2 _ _ _ _ _ _ _ _ hitems r hm

/-- C9: every recorded `GenerationResult` of a successful run has action
`create` or `overwrite` — `skip` is never produced — and in `processFile` the
action is `overwrite` exactly when the computed target path exists at the
moment the file is processed. -/
theorem claim_C9_no_skip :
    (∀ (templatesDir : Str) (fuel : Nat) (fs : Fs) (templateName targetName : Str)
        (targetDir : Path) (dryRun : Bool) (fsOut : Fs) (rs : List GenerationResult),
      generateFromTemplate templatesDir fuel fs templateName targetName targetDir dryRun =
        .ok (fsOut, rs) →
      ∀ r ∈ rs, r.action = GenAction.create ∨ r.action = GenAction.overwrite) ∧
    (∀ fs src tgt vars tfn dry fsOut r,
      processFile fs src tgt vars tfn dry = .ok (fsOut, r) →
      (r.action = GenAction.overwrite ↔ pathExistsFs fs r.path = true)) := by
  constructor
  · intro templatesDir fuel fs templateName targetName targetDir dryRun fsOut rs h
    unfold generateFromTemplate at h
    cases hv : validatePathE templateName with
    | error e => rw [hv] at h; simp at h
    | ok u =>
      rw [hv] at h
      by_cases hwd : isPathWithinDirectory (joinPosix templatesDir templateName) templatesDir = true
      · simp only [hwd, Bool.not_true, Bool.false_eq_true, if_false] at h
        by_cases hex : pathExistsFs fs (segsOf (joinPosix templatesDir templateName)) = true
        · simp only [hex, Bool.not_true, Bool.false_eq_true, if_false] at h
          cases hge : getEntry (segsOf (joinPosix templatesDir templateName)) fs with
          | none => rw [hge] at h; simp at h
          | some e =>
            rw [hge] at h
            cases e with
            | dir es =>
              cases hfs1 : (if dryRun then some fs
                  else ensureDirFs (targetDir ++
                    [(generateTemplateVariables targetName).templateNameToPascalCase]) fs) with
              | none => rw [hfs1] at h; simp at h
              | some fs1 =>
                rw [hfs1] at h
                intro r hr
                exact action_ne_skip _ ((walk_no_skip fuel).1 _ _ _ _ _ _ _ h r hr)
            | file c =>
              cases hpf : processFile fs (segsOf (joinPosix templatesDir templateName)) targetDir
                  (generateTemplateVariables targetName) none dryRun with
              | error e2 => rw [hpf] at h; simp at h
              | ok p =>
                rw [hpf] at h
                obtain ⟨fs1, r1⟩ := p
                simp only [Except.ok.injEq, Prod.mk.injEq] at h
                rcases h with ⟨_, rfl⟩
                intro r hr
                rcases List.mem_singleton.mp hr with rfl
                exact action_ne_skip _ (processFile_spec _ _ _ _ _ _ _ _ hpf).2
        · simp only [Bool.not_eq_true] at hex
          simp only [hex, Bool.not_false, if_true] at h
          simp at h
      · simp only [Bool.not_eq_true] at hwd
        simp only [hwd, Bool.not_false, if_true] at h
        simp at h
  · intro fs src tgt vars tfn dry fsOut r h
    exact (processFile_spec _ _ _ _ _ _ _ _ h).1

/-- A one-file template store shared by the concrete witnesses below. -/
def oneFileFs : Fs :=
  [ ("t".data, FsEntry.dir [("f.txt".data, FsEntry.file (some "hi".data))])
  , ("o".data, FsEntry.dir []) ]

/-- Witness for `claim_C9_no_skip` at a concrete successful run. -/
theorem claim_C9_witness :
    generateFromTemplate "t".data 5 oneFileFs "f.txt".data "My Widget".data ["o".data] true =
      .ok (oneFileFs, [⟨["o".data, "f.txt".data], GenAction.create⟩]) ∧
    (∀ r ∈ [({ path := ["o".data, "f.txt".data], action := GenAction.create } : GenerationResult)],
      r.action = GenAction.create ∨ r.action = GenAction.overwrite) :=
  ⟨rfl, claim_C9_no_skip.1 "t".data 5 oneFileFs "f.txt".data "My Widget".data
    ["o".data] true oneFileFs _ rfl⟩

/-! ### C3: dry-run semantics -/

theorem processFile_dry (fs : Fs) (src tgt : Path) (vars : TemplateVariables)
    (tfn : Option Str) (fsOut : Fs) (r : GenerationResult)
    (h : processFile fs src tgt vars tfn true = .ok (fsOut, r)) : fsOut = fs := by
  unfold processFile at h
  cases hrf : readFileFs fs src with
  | none => rw [hrf] at h; simp at h
  | some content =>
    rw [hrf] at h
    simp only [if_true] at h
    simp only [Except.ok.injEq, Prod.mk.injEq] at h
    exact h.1.symm

theorem walk_dry (fuel : Nat) :
    (∀ fs src tgt vars fsOut rs,
      processDirectory fuel fs src tgt vars true = .ok (fsOut, rs) → fsOut = fs) ∧
    (∀ items fs src tgt vars fsOut rs,
      processItems fuel items fs src tgt vars true = .ok (fsOut, rs) → fsOut = fs) := by
  induction fuel with
  | zero =>
    constructor
    · intro fs src tgt vars fsOut rs h
      simp [processDirectory] at h
    · intro items fs src tgt vars fsOut rs h
      simp [processItems] at h
  | succ n ih =>
    constructor
    · intro fs src tgt vars fsOut rs h
      rw [processDirectory] at h
      split at h
      · simp at h
      · exact ih.2 _ _ _ _ _ _ _ h
    · intro items fs src tgt vars fsOut rs h
      cases items with
      | nil =>
        rw [processItems_nil] at h
        simp only [Except.ok.injEq, Prod.mk.injEq] at h
        exact h.1.symm
      | cons item rest =>
        rw [processItems_cons] at h
        simp only [eq_self_iff_true, if_true] at h
        cases hge : getEntry (src ++ [item]) fs with
        | none => rw [hge] at h; simp at h
        | some e =>
          rw [hge] at h
          cases e with
          | dir es =>
            simp only [] at h
            cases hdir : processDirectory n fs (src ++ [item])
                (tgt ++ [replaceTemplateVariables item vars]) vars true with
            | error e2 => rw [hdir] at h; simp at h
            | ok p =>
              obtain ⟨fs2, rs1⟩ := p
              rw [hdir] at h
              simp only [] at h
              cases hitems : processItems n rest fs2 src tgt vars true with
              | error e2 => rw [hitems] at h; simp at h
              | ok q =>
                obtain ⟨fs3, rs2⟩ := q
                rw [hitems] at h
                simp only [Except.ok.injEq, Prod.mk.injEq] at h
                rcases h with ⟨rfl, _⟩
                have e2 := ih.1 _ _ _ _ _ _ hdir
                have e3 := ih.2 _ _ _ _ _ _ _ hitems
                rw [e3, e2]
          | file c0 =>
            simp only [] at h
            cases hpf : processFile fs (src ++ [item]) tgt vars
                (some (replaceTemplateVariables item vars)) true with
            | error e2 => rw [hpf] at h; simp at h
            | ok p =>
              obtain ⟨fs1, r1⟩ := p
              rw [hpf] at h
              simp only [] at h
              cases hitems : processItems n rest fs1 src tgt vars true with
              | error e2 => rw [hitems] at h; simp at h
              | ok q =>
                obtain ⟨fs2, rs2⟩ := q
                rw [hitems] at h
                simp only [Except.ok.injEq, Prod.mk.injEq] at h
                rcases h with ⟨rfl, _⟩
                have e1 := processFile_dry _ _ _ _ _ _ _ hpf
                have e2 := ih.2 _ _ _ _ _ _ _ hitems
                rw [e2, e1]

/-- C3 is false as stated: with a directory template containing two files that
substitute to the same target name, the non-dry run records
`[create, overwrite]` (its first write makes the second existence check
succeed) while the dry run records `[create, create]`. -/
def collideFs : Fs :=
  [ (".template".data, FsEntry.dir
      [ ("comp".data, FsEntry.dir
          [ ("__templateNameToLowerCase__.txt".data, FsEntry.file (some "a".data))
          , ("__templateNameToSnakeCase__.txt".data, FsEntry.file (some "b".data)) ]) ])
  , ("out".data, FsEntry.dir []) ]

theorem claim_C3_counterexample :
    resultsOf (generateFromTemplate ".template".data 10 collideFs "comp".data
        "Widget".data ["out".data] true) ≠
      resultsOf (generateFromTemplate ".template".data 10 collideFs "comp".data
        "Widget".data ["out".data] false) := by
  decide

/-- C3 amended: a successful dry run returns the file store unchanged (no
directory creation, no file write); and for a template that is a single FILE,
the recorded sequence of a dry run equals that of a non-dry run from the same
initial store.  (For directory templates exact mirroring fails: an earlier
write of the non-dry run can flip a later existence check, see
`claim_C3_counterexample`.) -/
theorem claim_C3_amended :
    (∀ (templatesDir : Str) (fuel : Nat) (fs : Fs) (templateName targetName : Str)
        (targetDir : Path) (fsOut : Fs) (rs : List GenerationResult),
      generateFromTemplate templatesDir fuel fs templateName targetName targetDir true =
        .ok (fsOut, rs) → fsOut = fs) ∧
    (∀ (templatesDir : Str) (fuel : Nat) (fs : Fs) (templateName targetName : Str)
        (targetDir : Path) (c : Option Str) (fsD fsW : Fs)
        (rsD rsW : List GenerationResult),
      getEntry (segsOf (joinPosix templatesDir templateName)) fs = some (FsEntry.file c) →
      generateFromTemplate templatesDir fuel fs templateName targetName targetDir true =
        .ok (fsD, rsD) →
      generateFromTemplate templatesDir fuel fs templateName targetName targetDir false =
        .ok (fsW, rsW) →
      rsW = rsD) := by
  constructor
  · intro templatesDir fuel fs templateName targetName targetDir fsOut rs h
    unfold generateFromTemplate at h
    cases hv : validatePathE templateName with
    | error e => rw [hv] at h; simp at h
    | ok u =>
      rw [hv] at h
      by_cases hwd : isPathWithinDirectory (joinPosix templatesDir templateName) templatesDir = true
      · simp only [hwd, Bool.not_true, Bool.false_eq_true, if_false] at h
        by_cases hex : pathExistsFs fs (segsOf (joinPosix templatesDir templateName)) = true
        · simp only [hex, Bool.not_true, Bool.false_eq_true, if_false] at h
          cases hge : getEntry (segsOf (joinPosix templatesDir templateName)) fs with
          | none => rw [hge] at h; simp at h
          | some e =>
            rw [hge] at h
            cases e with
            | dir es =>
              exact (walk_dry fuel).1 _ _ _ _ _ _ h
            | file c =>
              cases hpf : processFile fs (segsOf (joinPosix templatesDir templateName)) targetDir
                  (generateTemplateVariables targetName) none true with
              | error e2 => rw [hpf] at h; simp at h
              | ok p =>
                rw [hpf] at h
                obtain ⟨fs1, r1⟩ := p
                simp only [Except.ok.injEq, Prod.mk.injEq] at h
                rcases h with ⟨rfl, _⟩
                exact processFile_dry _ _ _ _ _ _ _ hpf
        · simp only [Bool.not_eq_true] at hex
          simp only [hex, Bool.not_false, if_true] at h
          simp at h
      · simp only [Bool.not_eq_true] at hwd
        simp only [hwd, Bool.not_false, if_true] at h
        simp at h
  · intro templatesDir fuel fs templateName targetName targetDir c fsD fsW rsD rsW hfile hD hW
    unfold generateFromTemplate at hD hW
    cases hv : validatePathE templateName with
    | error e => rw [hv] at hD; simp at hD
    | ok u =>
      rw [hv] at hD hW
      by_cases hwd : isPathWithinDirectory (joinPosix templatesDir templateName) templatesDir = true
      · simp only [hwd, Bool.not_true, Bool.false_eq_true, if_false] at hD hW
        have hex : pathExistsFs fs (segsOf (joinPosix templatesDir templateName)) = true := by
          simp [pathExistsFs, hfile]
        simp only [hex, Bool.not_true, Bool.false_eq_true, if_false] at hD hW
        rw [hfile] at hD hW
        cases hpfD : processFile fs (segsOf (joinPosix templatesDir templateName)) targetDir
            (generateTemplateVariables targetName) none true with
        | error e => rw [hpfD] at hD; simp at hD
        | ok p1 =>
          rw [hpfD] at hD
          cases hpfW : processFile fs (segsOf (joinPosix templatesDir templateName)) targetDir
              (generateTemplateVariables targetName) none false with
          | error e => rw [hpfW] at hW; simp at hW
          | ok p2 =>
            rw [hpfW] at hW
            obtain ⟨fs1, r1⟩ := p1
            obtain ⟨fs2, r2⟩ := p2
            simp only [Except.ok.injEq, Prod.mk.injEq] at hD hW
            rcases hD with ⟨_, rfl⟩
            rcases hW with ⟨_, rfl⟩
            have s1 := processFile_ok_shape _ _ _ _ _ _ _ _ hpfD
            have s2 := processFile_ok_shape _ _ _ _ _ _ _ _ hpfW
            rw [s1, s2]
      · simp only [Bool.not_eq_true] at hwd
        simp only [hwd, Bool.not_false, if_true] at hD
        simp at hD

/-- Witness for `claim_C3_amended` at a concrete single-file template. -/
theorem claim_C3_witness :
    getEntry (segsOf (joinPosix "t".data "f.txt".data)) oneFileFs =
      some (FsEntry.file (some "hi".data)) ∧
    generateFromTemplate "t".data 5 oneFileFs "f.txt".data "My Widget".data ["o".data] true =
      .ok (oneFileFs, [⟨["o".data, "f.txt".data], GenAction.create⟩]) ∧
    generateFromTemplate "t".data 5 oneFileFs "f.txt".data "My Widget".data ["o".data] false =
      .ok ([ ("t".data, FsEntry.dir [("f.txt".data, FsEntry.file (some "hi".data))])
           , ("o".data, FsEntry.dir [("f.txt".data, FsEntry.file (some "hi".data))]) ],
        [⟨["o".data, "f.txt".data], GenAction.create⟩]) ∧
    ([⟨["o".data, "f.txt".data], GenAction.create⟩] : List GenerationResult) =
      [⟨["o".data, "f.txt".data], GenAction.create⟩] :=
  ⟨rfl, rfl, rfl,
    claim_C3_amended.2 "t".data 5 oneFileFs "f.txt".data "My Widget".data ["o".data]
      (some "hi".data) oneFileFs _ _ _ rfl rfl rfl⟩

/-! ### C2: generating twice -/

/-- C2 is false as stated: on a target directory that is empty before the
first run, the colliding template of `collideFs` already makes the FIRST run
record an `overwrite` as its second entry. -/
theorem claim_C2_counterexample :
    ((resultsOf (generateFromTemplate ".template".data 10 collideFs "comp".data
        "Widget".data ["out".data] false)).getD []).all
      (fun r => decide (r.action = GenAction.create)) = false := by
  decide

/-! ### Frame lemmas for the file store -/

theorem lookupE_setE_self (n : Str) (e : FsEntry) :
    ∀ fs : Fs, lookupE n (setE n e fs) = some e := by
  intro fs
  induction fs with
  | nil => simp [setE, lookupE]
  | cons p rest ih =>
    obtain ⟨m, e0⟩ := p
    by_cases hnm : n = m
    · simp [setE, lookupE, hnm]
    · simp only [setE, lookupE, hnm, if_false]
      exact ih

theorem lookupE_setE_ne (b n : Str) (e : FsEntry) (hbn : b ≠ n) :
    ∀ fs : Fs, lookupE b (setE n e fs) = lookupE b fs := by
  intro fs
  induction fs with
  | nil => simp [setE, lookupE, hbn]
  | cons p rest ih =>
    obtain ⟨m, e0⟩ := p
    by_cases hnm : n = m
    · subst hnm
      simp [setE, lookupE, hbn]
    · simp only [setE, hnm, if_false, lookupE]
      by_cases hbm : b = m
      · simp [hbm]
      · simp only [hbm, if_false]
        exact ih

theorem setE_self (n : Str) (e : FsEntry) :
    ∀ fs : Fs, lookupE n fs = some e → setE n e fs = fs := by
  intro fs
  induction fs with
  | nil => intro h; simp [lookupE] at h
  | cons p rest ih =>
    obtain ⟨m, e0⟩ := p
    intro h
    by_cases hnm : n = m
    · subst hnm
      simp only [lookupE, eq_self_iff_true, if_true, Option.some.injEq] at h
      subst h
      simp [setE]
    · simp only [lookupE, hnm, if_false] at h
      simp only [setE, hnm, if_false]
      rw [ih h]

theorem ensureDirFs_exists : ∀ (p : Path) (fs es : Fs),
    getEntry p fs = some (FsEntry.dir es) → ensureDirFs p fs = some fs := by
  intro p
  induction p with
  | nil => intro fs es _; rfl
  | cons a rest ih =>
    intro fs es h
    cases hl : lookupE a fs with
    | none => simp [getEntry, hl] at h
    | some e0 =>
      have hdir : ∃ es0, e0 = FsEntry.dir es0 ∧ getEntry rest es0 = some (FsEntry.dir es) := by
        cases rest with
        | nil =>
          simp only [getEntry, hl] at h
          rw [Option.some.injEq] at h
          exact ⟨es, h, rfl⟩
        | cons x xs =>
          simp only [getEntry, hl] at h
          cases e0 with
          | file c => simp at h
          | dir es0 => exact ⟨es0, rfl, h⟩
      obtain ⟨es0, rfl, hrec⟩ := hdir
      simp only [ensureDirFs, hl]
      rw [ih es0 es hrec]
      simp [setE_self a (FsEntry.dir es0) fs hl]

/-- Resolving one extra segment goes through the parent directory's
listing. -/
theorem getEntry_append_one : ∀ (p : Path) (x : Str) (fs : Fs),
    getEntry (p ++ [x]) fs =
      (match getEntry p fs with
      | some (FsEntry.dir es) => lookupE x es
      | some (FsEntry.file _) => none
      | none => none) := by
  intro p
  induction p with
  | nil =>
    intro x fs
    simp only [List.nil_append, getEntry]
    cases hl : lookupE x fs <;> rfl
  | cons a rest ih =>
    intro x fs
    cases hl : lookupE a fs with
    | none =>
      simp only [List.cons_append, getEntry, hl]
    | some e0 =>
      cases e0 with
      | file c =>
        cases rest with
        | nil => simp [getEntry, hl]
        | cons y ys => simp [getEntry, hl]
      | dir es0 =>
        cases rest with
        | nil =>
          simp only [List.cons_append, List.nil_append, getEntry, hl]
          cases hx : lookupE x es0 <;> simp [hx]
        | cons y ys =>
          simp only [List.cons_append, getEntry, hl]
          simpa using ih x es0

theorem startsWithL_nil {α : Type} [DecidableEq α] (s : List α) :
    startsWithL ([] : List α) s = true := rfl

theorem startsWithL_cons_cons {α : Type} [DecidableEq α] (x y : α) (u v : List α) :
    startsWithL (x :: u) (y :: v) = if x = y then startsWithL u v else false := rfl

/-- A prefix of `q ++ [x]` is a prefix of `q` or the whole list. -/
theorem startsWithL_append_one {α : Type} [DecidableEq α] :
    ∀ (p q : List α) (x : α), startsWithL p (q ++ [x]) = true →
      startsWithL p q = true ∨ p = q ++ [x] := by
  intro p
  induction p with
  | nil => intro q x _; exact Or.inl rfl
  | cons a p2 ih =>
    intro q x h
    cases q with
    | nil =>
      simp only [List.nil_append] at h ⊢
      rw [startsWithL_cons_cons] at h
      by_cases hax : a = x
      · rw [if_pos hax] at h
        cases p2 with
        | nil => exact Or.inr (by rw [hax])
        | cons b p3 => simp [startsWithL] at h
      · rw [if_neg hax] at h
        exact absurd h (by simp)
    | cons b q2 =>
      simp only [List.cons_append] at h ⊢
      rw [startsWithL_cons_cons] at h
      by_cases hab : a = b
      · rw [if_pos hab] at h
        rcases ih q2 x h with h2 | h2
        · exact Or.inl (by rw [startsWithL_cons_cons, if_pos hab]; exact h2)
        · exact Or.inr (by rw [hab, h2])
      · rw [if_neg hab] at h
        exact absurd h (by simp)

/-- If `p ++ r` is a prefix of `s` then so is `p`. -/
theorem startsWithL_of_append {α : Type} [DecidableEq α] :
    ∀ (p r s : List α), startsWithL (p ++ r) s = true → startsWithL p s = true := by
  intro p
  induction p with
  | nil => intro r s _; rfl
  | cons a p2 ih =>
    intro r s h
    cases s with
    | nil => simp [startsWithL] at h
    | cons b s2 =>
      simp only [List.cons_append] at h
      rw [startsWithL_cons_cons] at h ⊢
      by_cases hab : a = b
      · rw [if_pos hab] at h ⊢
        exact ih r s2 h
      · rw [if_neg hab] at h
        exact absurd h (by simp)

theorem getEntry_cons_dir_step (a x : Str) (xs : List Str) (fs : Fs) (es1 : Fs)
    (h : lookupE a fs = some (FsEntry.dir es1)) :
    getEntry (a :: x :: xs) fs = getEntry (x :: xs) es1 := by
  simp [getEntry, h]

/-- Writing a file whose parent directory exists (and whose own slot is not a
directory) succeeds; the file is then readable at its path, the parent is
still a directory, and every path that neither extends nor prefixes the
written path resolves as before. -/
theorem writeFileFs_spec : ∀ (dirP : Path) (fname : Str) (c : Str) (fs es : Fs),
    getEntry dirP fs = some (FsEntry.dir es) →
    (∀ es2, lookupE fname es ≠ some (FsEntry.dir es2)) →
    ∃ fs1, writeFileFs (dirP ++ [fname]) c fs = some fs1 ∧
      getEntry (dirP ++ [fname]) fs1 = some (FsEntry.file (some c)) ∧
      (∃ es1, getEntry dirP fs1 = some (FsEntry.dir es1)) ∧
      ∀ q : Path, startsWithL (dirP ++ [fname]) q = false →
        startsWithL q (dirP ++ [fname]) = false →
        getEntry q fs1 = getEntry q fs := by
  intro dirP
  induction dirP with
  | nil =>
    intro fname c fs es hroot hnd
    have hes : es = fs := by
      simp only [getEntry, Option.some.injEq, FsEntry.dir.injEq] at hroot
      exact hroot.symm
    subst hes
    refine ⟨setE fname (FsEntry.file (some c)) es, ?_, ?_, ?_, ?_⟩
    · rw [List.nil_append]
      cases hl : lookupE fname es with
      | none => simp only [writeFileFs, hl]
      | some e1 =>
        cases e1 with
        | dir es2 => exact absurd hl (hnd es2)
        | file c0 => simp only [writeFileFs, hl]
    · simp only [List.nil_append, getEntry]
      rw [lookupE_setE_self]
    · exact ⟨_, rfl⟩
    · intro q hq1 hq2
      cases q with
      | nil => simp [startsWithL] at hq2
      | cons b q2 =>
        by_cases hbf : b = fname
        · subst hbf
          rw [List.nil_append, startsWithL_cons_cons, if_pos rfl] at hq1
          exact absurd hq1 (by simp [startsWithL])
        · simp only [getEntry]
          rw [lookupE_setE_ne b fname _ hbf]
  | cons a dirP2 ih =>
    intro fname c fs es hroot hnd
    cases hl : lookupE a fs with
    | none => simp [getEntry, hl] at hroot
    | some e0 =>
      have hdir : ∃ es0, e0 = FsEntry.dir es0 ∧ getEntry dirP2 es0 = some (FsEntry.dir es) := by
        cases dirP2 with
        | nil =>
          simp only [getEntry, hl, Option.some.injEq] at hroot
          exact ⟨es, by rw [hroot], rfl⟩
        | cons x xs =>
          simp only [getEntry, hl] at hroot
          cases e0 with
          | file c0 => simp at hroot
          | dir es0 => exact ⟨es0, rfl, hroot⟩
      obtain ⟨es0, rfl, hrec⟩ := hdir
      obtain ⟨es1, hw, hg, hdp, hfr⟩ := ih fname c es0 es hrec hnd
      refine ⟨setE a (FsEntry.dir es1) fs, ?_, ?_, ?_, ?_⟩
      · cases hap : dirP2 ++ [fname] with
        | nil => exact absurd hap (by simp)
        | cons b restb =>
          simp only [List.cons_append, hap, writeFileFs, hl]
          rw [← hap, hw]
          rfl
      · cases hap : dirP2 ++ [fname] with
        | nil => exact absurd hap (by simp)
        | cons b restb =>
          rw [List.cons_append, hap,
            getEntry_cons_dir_step a b restb _ es1 (lookupE_setE_self a _ fs), ← hap]
          exact hg
      · obtain ⟨esd, hdp2⟩ := hdp
        cases dirP2 with
        | nil =>
          exact ⟨es1, by simp [getEntry, lookupE_setE_self]⟩
        | cons x xs =>
          refine ⟨esd, ?_⟩
          rw [getEntry_cons_dir_step a x xs _ es1 (lookupE_setE_self a _ fs)]
          exact hdp2
      · intro q hq1 hq2
        cases q with
        | nil => simp [startsWithL] at hq2
        | cons b q2 =>
          by_cases hba : b = a
          · subst hba
            rw [List.cons_append] at hq1 hq2
            rw [startsWithL_cons_cons, if_pos rfl] at hq1
            rw [startsWithL_cons_cons, if_pos rfl] at hq2
            cases q2 with
            | nil => simp [startsWithL] at hq2
            | cons x xs =>
              rw [getEntry_cons_dir_step b x xs _ es1 (lookupE_setE_self b _ fs),
                getEntry_cons_dir_step b x xs fs es0 hl]
              exact hfr (x :: xs) hq1 hq2
          · simp only [getEntry]
            rw [lookupE_setE_ne b a _ hba]

/-- The store path of the resolved template. -/
def tplPath (templatesDir templateName : Str) : Path :=
  segsOf (joinPosix templatesDir templateName)

/-- The substituted target file name of a single-file template. -/
def tgtFileName (templatesDir templateName targetName : Str) : Str :=
  replaceTemplateVariables (basenameP (tplPath templatesDir templateName))
    (generateTemplateVariables targetName)

/-- The full target path of a single-file template generation. -/
def tgtFilePath (templatesDir templateName targetName : Str) (targetDir : Path) : Path :=
  targetDir ++ [tgtFileName templatesDir templateName targetName]

/-- C2 amended: for a template resolving to a single readable file that lies
outside the target directory (neither path a prefix of the other), with the
target directory present and the computed target file absent before the first
run, two successive non-dry runs with identical inputs record exactly one
`create` and then exactly one `overwrite` at the same path, and after each run
the stored content is the same substituted text.  (For directory templates the
all-`create` half fails when two entries collide, see
`claim_C2_counterexample`.) -/
theorem claim_C2_amended
    (templatesDir templateName targetName content : Str) (targetDir : Path)
    (fs ds : Fs) (fuel : Nat)
    (hval : validatePathE templateName = Except.ok ())
    (hwithin : isPathWithinDirectory (joinPosix templatesDir templateName) templatesDir = true)
    (htpl : getEntry (tplPath templatesDir templateName) fs = some (FsEntry.file (some content)))
    (htgt : getEntry targetDir fs = some (FsEntry.dir ds))
    (habsent : getEntry (tgtFilePath templatesDir templateName targetName targetDir) fs = none)
    (hd1 : startsWithL (tplPath templatesDir templateName) targetDir = false)
    (hd2 : startsWithL targetDir (tplPath templatesDir templateName) = false) :
    ∃ fs1 fs2,
      generateFromTemplate templatesDir fuel fs templateName targetName targetDir false =
        .ok (fs1, [⟨tgtFilePath templatesDir templateName targetName targetDir,
          GenAction.create⟩]) ∧
      getEntry (tgtFilePath templatesDir templateName targetName targetDir) fs1 =
        some (FsEntry.file (some (replaceTemplateVariables content
          (generateTemplateVariables targetName)))) ∧
      generateFromTemplate templatesDir fuel fs1 templateName targetName targetDir false =
        .ok (fs2, [⟨tgtFilePath templatesDir templateName targetName targetDir,
          GenAction.overwrite⟩]) ∧
      getEntry (tgtFilePath templatesDir templateName targetName targetDir) fs2 =
        some (FsEntry.file (some (replaceTemplateVariables content
          (generateTemplateVariables targetName)))) := by
  simp only [tplPath, tgtFilePath, tgtFileName] at htpl habsent hd1 hd2 ⊢
  -- abbreviations used throughout
  have hlook1 : lookupE (replaceTemplateVariables
      (basenameP (segsOf (joinPosix templatesDir templateName)))
      (generateTemplateVariables targetName)) ds = none := by
    have h2 := getEntry_append_one targetDir
      (replaceTemplateVariables (basenameP (segsOf (joinPosix templatesDir templateName)))
        (generateTemplateVariables targetName)) fs
    rw [htgt] at h2
    rw [habsent] at h2
    exact h2.symm
  have hnd1 : ∀ es2, lookupE (replaceTemplateVariables
      (basenameP (segsOf (joinPosix templatesDir templateName)))
      (generateTemplateVariables targetName)) ds ≠ some (FsEntry.dir es2) := by
    intro es2 hcon
    rw [hlook1] at hcon
    simp at hcon
  obtain ⟨fsW, hw1, hg1, hdp1, hfr1⟩ := writeFileFs_spec targetDir
    (replaceTemplateVariables (basenameP (segsOf (joinPosix templatesDir templateName)))
      (generateTemplateVariables targetName))
    (replaceTemplateVariables content (generateTemplateVariables targetName)) fs ds htgt hnd1
  -- the template path diverges from the written path
  have hc1 : startsWithL (targetDir ++
      [replaceTemplateVariables (basenameP (segsOf (joinPosix templatesDir templateName)))
        (generateTemplateVariables targetName)])
      (segsOf (joinPosix templatesDir templateName)) = false := by
    cases hcc : startsWithL (targetDir ++
        [replaceTemplateVariables (basenameP (segsOf (joinPosix templatesDir templateName)))
          (generateTemplateVariables targetName)])
        (segsOf (joinPosix templatesDir templateName)) with
    | false => rfl
    | true =>
      have := startsWithL_of_append targetDir _ _ hcc
      rw [this] at hd2
      exact absurd hd2 (by simp)
  have hc2 : startsWithL (segsOf (joinPosix templatesDir templateName))
      (targetDir ++
        [replaceTemplateVariables (basenameP (segsOf (joinPosix templatesDir templateName)))
          (generateTemplateVariables targetName)]) = false := by
    cases hcc : startsWithL (segsOf (joinPosix templatesDir templateName))
        (targetDir ++
          [replaceTemplateVariables (basenameP (segsOf (joinPosix templatesDir templateName)))
            (generateTemplateVariables targetName)]) with
    | false => rfl
    | true =>
      rcases startsWithL_append_one _ _ _ hcc with h2 | h2
      · rw [h2] at hd1
        exact absurd hd1 (by simp)
      · rw [h2] at htpl
        rw [htpl] at habsent
        exact absurd habsent (by simp)
  have hfrtp := hfr1 (segsOf (joinPosix templatesDir templateName)) hc1 hc2
  -- run 1
  have hrf1 : readFileFs fs (segsOf (joinPosix templatesDir templateName)) = some content := by
    unfold readFileFs
    rw [htpl]
  have hex1 : pathExistsFs fs (targetDir ++
      [replaceTemplateVariables (basenameP (segsOf (joinPosix templatesDir templateName)))
        (generateTemplateVariables targetName)]) = false := by
    unfold pathExistsFs
    rw [habsent]
    rfl
  have hpf1 : processFile fs (segsOf (joinPosix templatesDir templateName)) targetDir
      (generateTemplateVariables targetName) none false =
      .ok (fsW, ⟨targetDir ++
        [replaceTemplateVariables (basenameP (segsOf (joinPosix templatesDir templateName)))
          (generateTemplateVariables targetName)], GenAction.create⟩) := by
    unfold processFile
    rw [hrf1]
    simp only [hex1, Bool.false_eq_true, if_false]
    rw [ensureDirFs_exists targetDir fs ds htgt]
    simp only []
    rw [hw1]
  have hexrun1 : pathExistsFs fs (segsOf (joinPosix templatesDir templateName)) = true := by
    unfold pathExistsFs
    rw [htpl]
    rfl
  have hrun1 : generateFromTemplate templatesDir fuel fs templateName targetName targetDir
      false = .ok (fsW, [⟨targetDir ++
        [replaceTemplateVariables (basenameP (segsOf (joinPosix templatesDir templateName)))
          (generateTemplateVariables targetName)], GenAction.create⟩]) := by
    unfold generateFromTemplate
    rw [hval]
    simp only [hwithin, Bool.not_true, Bool.false_eq_true, if_false, segsOf] at *
    simp only [hexrun1, Bool.not_true, Bool.false_eq_true, if_false]
    rw [htpl, hpf1]
  -- run 2
  obtain ⟨es1, hdir1⟩ := hdp1
  have hlook2 : lookupE (replaceTemplateVariables
      (basenameP (segsOf (joinPosix templatesDir templateName)))
      (generateTemplateVariables targetName)) es1 =
      some (FsEntry.file (some (replaceTemplateVariables content
        (generateTemplateVariables targetName)))) := by
    have h2 := getEntry_append_one targetDir
      (replaceTemplateVariables (basenameP (segsOf (joinPosix templatesDir templateName)))
        (generateTemplateVariables targetName)) fsW
    rw [hdir1] at h2
    rw [hg1] at h2
    exact h2.symm
  have hnd2 : ∀ es2, lookupE (replaceTemplateVariables
      (basenameP (segsOf (joinPosix templatesDir templateName)))
      (generateTemplateVariables targetName)) es1 ≠ some (FsEntry.dir es2) := by
    intro es2 hcon
    rw [hlook2] at hcon
    simp at hcon
  obtain ⟨fs2, hw2, hg2, _, _⟩ := writeFileFs_spec targetDir
    (replaceTemplateVariables (basenameP (segsOf (joinPosix templatesDir templateName)))
      (generateTemplateVariables targetName))
    (replaceTemplateVariables content (generateTemplateVariables targetName)) fsW es1 hdir1 hnd2
  have htplW : getEntry (segsOf (joinPosix templatesDir templateName)) fsW =
      some (FsEntry.file (some content)) := by
    rw [hfrtp, htpl]
  have hrf2 : readFileFs fsW (segsOf (joinPosix templatesDir templateName)) = some content := by
    unfold readFileFs
    rw [htplW]
  have hex2 : pathExistsFs fsW (targetDir ++
      [replaceTemplateVariables (basenameP (segsOf (joinPosix templatesDir templateName)))
        (generateTemplateVariables targetName)]) = true := by
    unfold pathExistsFs
    rw [hg1]
    rfl
  have hpf2 : processFile fsW (segsOf (joinPosix templatesDir templateName)) targetDir
      (generateTemplateVariables targetName) none false =
      .ok (fs2, ⟨targetDir ++
        [replaceTemplateVariables (basenameP (segsOf (joinPosix templatesDir templateName)))
          (generateTemplateVariables targetName)], GenAction.overwrite⟩) := by
    unfold processFile
    rw [hrf2]
    simp only [hex2, if_true, Bool.false_eq_true, if_false]
    rw [ensureDirFs_exists targetDir fsW es1 hdir1]
    simp only []
    rw [hw2]
  have hexrun2 : pathExistsFs fsW (segsOf (joinPosix templatesDir templateName)) = true := by
    unfold pathExistsFs
    rw [htplW]
    rfl
  have hrun2 : generateFromTemplate templatesDir fuel fsW templateName targetName targetDir
      false = .ok (fs2, [⟨targetDir ++
        [replaceTemplateVariables (basenameP (segsOf (joinPosix templatesDir templateName)))
          (generateTemplateVariables targetName)], GenAction.overwrite⟩]) := by
    unfold generateFromTemplate
    rw [hval]
    simp only [hwithin, Bool.not_true, Bool.false_eq_true, if_false, segsOf] at *
    simp only [hexrun2, Bool.not_true, Bool.false_eq_true, if_false]
    rw [htplW, hpf2]
  exact ⟨fsW, fs2, hrun1, hg1, hrun2, hg2⟩

/-- Witness for `claim_C2_amended` at the concrete one-file template store. -/
theorem claim_C2_witness :
    validatePathE "f.txt".data = Except.ok () ∧
    isPathWithinDirectory (joinPosix "t".data "f.txt".data) "t".data = true ∧
    getEntry (tplPath "t".data "f.txt".data) oneFileFs =
      some (FsEntry.file (some "hi".data)) ∧
    getEntry ["o".data] oneFileFs = some (FsEntry.dir []) ∧
    getEntry (tgtFilePath "t".data "f.txt".data "My Widget".data ["o".data]) oneFileFs =
      none ∧
    startsWithL (tplPath "t".data "f.txt".data) ["o".data] = false ∧
    startsWithL ["o".data] (tplPath "t".data "f.txt".data) = false ∧
    (∃ fs1 fs2,
      generateFromTemplate "t".data 5 oneFileFs "f.txt".data "My Widget".data
          ["o".data] false =
        .ok (fs1, [⟨tgtFilePath "t".data "f.txt".data "My Widget".data ["o".data],
          GenAction.create⟩]) ∧
      getEntry (tgtFilePath "t".data "f.txt".data "My Widget".data ["o".data]) fs1 =
        some (FsEntry.file (some (replaceTemplateVariables "hi".data
          (generateTemplateVariables "My Widget".data)))) ∧
      generateFromTemplate "t".data 5 fs1 "f.txt".data "My Widget".data
          ["o".data] false =
        .ok (fs2, [⟨tgtFilePath "t".data "f.txt".data "My Widget".data ["o".data],
          GenAction.overwrite⟩]) ∧
      getEntry (tgtFilePath "t".data "f.txt".data "My Widget".data ["o".data]) fs2 =
        some (FsEntry.file (some (replaceTemplateVariables "hi".data
          (generateTemplateVariables "My Widget".data))))) :=
  ⟨rfl, by decide, rfl, rfl, rfl, by decide, by decide,
    claim_C2_amended "t".data "f.txt".data "My Widget".data "hi".data ["o".data]
      oneFileFs [] 5 rfl (by decide) rfl rfl rfl (by decide) (by decide)⟩

end CompTemplate
